import Mathlib

/-! goHttpHandler: the gzip/logging response decorator of `handlers.go`

A shallow embedding of `handlers.go`.  Pointer-held Go objects become explicit
state that every method takes and returns; a nil-pointer fault is a result
`none`.  Go `int` is 64 bit; byte totals are kept as unbounded `Int`, the
totals of any response being far below `2^63`.

What lives outside the repository is a parameter (`World`): content sniffing,
the result of a write on the wrapped response sink, and the bytes the gzip
encoder produces.  Go strings are Lean strings, the `strings` functions being
restated by structural recursion on the character list.
-/

namespace GoHttpHandler

/-- A body chunk. -/
abbrev Bytes := List UInt8

/-! ## Go library functions used by the source -/

/-- Go `unicode.IsSpace`: the Latin-1 spaces and the Unicode `White_Space` code points. -/
def isSpace (c : Char) : Bool :=
  let n := c.toNat
  (9 ≤ n && n ≤ 13) || n == 32 || n == 0x85 || n == 0xA0 || n == 0x1680 ||
  (0x2000 ≤ n && n ≤ 0x200A) || n == 0x2028 || n == 0x2029 || n == 0x202F ||
  n == 0x205F || n == 0x3000

/-- Go `strings.TrimSpace`, on the character list. -/
def trimSpaceChars (s : List Char) : List Char :=
  ((s.dropWhile isSpace).reverse.dropWhile isSpace).reverse

/-- Go `strings.TrimSpace`. -/
def TrimSpace (s : String) : String := ⟨trimSpaceChars s.data⟩

/-- Go `strings.Split` with a one-character separator, on the character list:
`n` separators give `n + 1` pieces, the empty string gives one empty piece. -/
def splitChars (sep : Char) : List Char → List (List Char)
  | [] => [[]]
  | c :: cs =>
    if c = sep then [] :: splitChars sep cs
    else
      match splitChars sep cs with
      | [] => [[c]]
      | t :: ts => (c :: t) :: ts

/-- Go `strings.Split(s, sep)` for a one-character separator. -/
def Split (s : String) (sep : Char) : List String :=
  (splitChars sep s.data).map String.mk

/-- Go `strings.HasPrefix`. -/
def HasPrefix (s p : String) : Bool := p.data.isPrefixOf s.data

/-- The characters before the last occurrence of `sep`, if there is one:
`s[:strings.LastIndex(s, sep)]`, which faults (`none`) when the index is `-1`. -/
def beforeLastChars (sep : Char) : List Char → Option (List Char)
  | [] => none
  | c :: cs =>
    match beforeLastChars sep cs with
    | some t => some (c :: t)
    | none => if c = sep then some [] else none

/-- Value of a string of decimal digits. -/
def digitsValue (ds : List Char) : Nat :=
  ds.foldl (fun acc d => 10 * acc + (d.toNat - 48)) 0

/-- Go `strconv.ParseInt(s, 10, 32)`: an optional sign, then one or more decimal
digits, the value within the signed 32-bit range; `none` is a parse error. -/
def parseInt32 (s : String) : Option Int :=
  let (neg, ds) :=
    match s.data with
    | '+' :: r => (false, r)
    | '-' :: r => (true, r)
    | r => (false, r)
  if ds.isEmpty || !ds.all Char.isDigit then none
  else
    let v := digitsValue ds
    if neg then (if v ≤ 2147483648 then some (-(v : Int)) else none)
    else (if v < 2147483648 then some (v : Int) else none)

/-- Go `http.Header`: a map from (canonical) header names to value lists, as an
association list in which the first entry of a name is the live one. -/
structure Header where
  entries : List (String × List String)
deriving DecidableEq, Repr

namespace Header

/-- `h.Get(key)`: the first value of the entry, or the empty string. -/
def Get (h : Header) (key : String) : String :=
  match h.entries.lookup key with
  | some (v :: _) => v
  | _ => ""

/-- `h.Set(key, value)`: the entry becomes the single value. -/
def Set (h : Header) (key value : String) : Header :=
  ⟨(key, [value]) :: h.entries.filter (fun p => p.1 != key)⟩

/-- `h.Del(key)`: the entry is removed. -/
def Del (h : Header) (key : String) : Header :=
  ⟨h.entries.filter (fun p => p.1 != key)⟩

/-- Whether the map has an entry for `key`. -/
def Has (h : Header) (key : String) : Bool :=
  (h.entries.lookup key).isSome

/-- The map carries the compression headers: `Content-Encoding` is `gzip` and
there is no `Content-Length` entry. -/
def Gzipped (h : Header) : Prop :=
  h.Get "Content-Encoding" = "gzip" ∧ h.Has "Content-Length" = false

instance (h : Header) : Decidable h.Gzipped := by
  unfold Gzipped
  infer_instance

end Header

/-- The fields of `http.Request` the source reads. -/
structure Request where
  Method : String
  RequestURI : String
  RemoteAddr : String
  Header : Header
deriving DecidableEq, Repr

/-- `r.Referer()`. -/
def Request.Referer (r : Request) : String := r.Header.Get "Referer"

/-- `r.UserAgent()`. -/
def Request.UserAgent (r : Request) : String := r.Header.Get "User-Agent"

/-- The wrapped `http.ResponseWriter`: its header map, and a record of the calls
it received (the data of every `Write`, the code of every `WriteHeader`). -/
structure ResponseWriter where
  header : Header
  writes : List Bytes
  statuses : List Int
deriving DecidableEq, Repr

/-- Count and error returned by a Go `Write`. -/
abbrev WriteResult := Int × Option String

/-- What lies outside the repository. -/
structure World where
  /-- `http.DetectContentType`. -/
  DetectContentType : Bytes → String
  /-- What the wrapped sink's `Write` returns, given the sink and the data. -/
  sinkWrite : ResponseWriter → Bytes → WriteResult
  /-- Bytes the gzip encoder hands to its sink when a chunk (second argument) is
  written after the input so far (first argument). -/
  gzEmit : Bytes → Bytes → Bytes
  /-- Bytes the gzip encoder hands to its sink when closed after the input. -/
  gzClose : Bytes → Bytes

/-- `w.Write(data)` on the wrapped sink: the call is recorded, the result is the world's. -/
def ResponseWriter.Write (wd : World) (w : ResponseWriter) (data : Bytes) :
    ResponseWriter × WriteResult :=
  ({ w with writes := w.writes ++ [data] }, wd.sinkWrite w data)

/-- `w.WriteHeader(statusCode)` on the wrapped sink. -/
def ResponseWriter.WriteHeader (w : ResponseWriter) (statusCode : Int) : ResponseWriter :=
  { w with statuses := w.statuses ++ [statusCode] }

/-! ## The source -/

/-- `minGzipSize`. -/
def minGzipSize : Int := 1024

/-- `gzipableContents`. -/
def gzipableContents : List String :=
  ["text/plain", "text/html", "text/css", "application/json", "application/javascript",
   "application/x-javascript", "text/xml", "application/xml", "application/xml+rss",
   "text/javascript"]

/-- `statWriter`; its `writer` is the decorator's wrapped sink, passed explicitly. -/
structure statWriter where
  bytes : Int
deriving DecidableEq, Repr

/-- `statWriter.Write`. -/
def statWriter.Write (wd : World) (sw : statWriter) (w : ResponseWriter) (data : Bytes) :
    statWriter × ResponseWriter × WriteResult :=
  let r := w.Write wd data
  ((if r.2.2 = none then { sw with bytes := sw.bytes + r.2.1 } else sw), r.1, r.2)

/-- The `gzip.Writer` of the Go library, as an abstract encoder: the input it has
taken, its sticky error, whether it was closed.  Its sink is the `statWriter`. -/
structure GzipWriter where
  fed : Bytes
  err : Option String
  closed : Bool
deriving DecidableEq, Repr

/-- `gzip.NewWriter`. -/
def GzipWriter.new : GzipWriter := ⟨[], none, false⟩

/-- `gzip.Writer.Write`: a stored error is returned at once; otherwise the bytes
produced for the chunk (if any) go to the sink in one write, whose error is
stored and returned with count 0; on success the count is the chunk length. -/
def GzipWriter.Write (wd : World) (z : GzipWriter) (sw : statWriter) (w : ResponseWriter)
    (p : Bytes) : GzipWriter × statWriter × ResponseWriter × WriteResult :=
  match z.err with
  | some e => (z, sw, w, 0, some e)
  | none =>
    let out := wd.gzEmit z.fed p
    if out.isEmpty then ({ z with fed := z.fed ++ p }, sw, w, (p.length : Int), none)
    else
      let r := sw.Write wd w out
      match r.2.2.2 with
      | none => ({ z with fed := z.fed ++ p }, r.1, r.2.1, (p.length : Int), none)
      | some e => ({ z with err := some e }, r.1, r.2.1, 0, some e)

/-- `gzip.Writer.Close`: nothing after an error or a previous close; otherwise the
closing bytes go to the sink in one write. -/
def GzipWriter.Close (wd : World) (z : GzipWriter) (sw : statWriter) (w : ResponseWriter) :
    GzipWriter × statWriter × ResponseWriter × Option String :=
  match z.err with
  | some e => (z, sw, w, some e)
  | none =>
    if z.closed then (z, sw, w, none)
    else
      let r := sw.Write wd w (wd.gzClose z.fed)
      ({ z with closed := true, err := r.2.2.2 }, r.1, r.2.1, r.2.2.2)

/-- `gzipRespWriter`. -/
structure gzipRespWriter where
  writer : ResponseWriter
  request : Request
  sw : Option statWriter
  gzipWriter : Option GzipWriter
  written : Bool
  headerSet : Bool
  gzipContent : Bool
  statusCode : Int
  origBytes : Int
  contentLength : Int
deriving DecidableEq, Repr

/-- `newGzipRespWriter`. -/
def newGzipRespWriter (w : ResponseWriter) (r : Request) : gzipRespWriter :=
  { writer := w, request := r, sw := none, gzipWriter := none, written := false,
    headerSet := false, gzipContent := false, statusCode := 200, origBytes := 0,
    contentLength := 0 }

namespace gzipRespWriter

/-- `grw.Header()`. -/
def Header (grw : gzipRespWriter) : Header := grw.writer.header

/-- `grw.setHeader()`. -/
def setHeader (grw : gzipRespWriter) : gzipRespWriter :=
  if grw.headerSet then grw
  else
    { grw with
      writer := { grw.writer with
        header := (grw.writer.header.Set "Content-Encoding" "gzip").Del "Content-Length" }
      headerSet := true }

/-- The first loop of `canGzip`: some comma-separated piece of `Accept-Encoding`
is `"gzip"` once trimmed. -/
def acceptGzip (r : Request) : Bool :=
  (Split (r.Header.Get "Accept-Encoding") ',').any (fun encoding => "gzip" == TrimSpace encoding)

/-- The second loop of `canGzip`, on the `Content-Type` value. -/
def gzipable (ct : String) : Bool :=
  gzipableContents.any (fun gzipCt => ct == gzipCt || HasPrefix ct (gzipCt ++ "; "))

/-- `grw.canGzip(length)`. -/
def canGzip (grw : gzipRespWriter) (length : Int) : Bool :=
  if !acceptGzip grw.request || grw.statusCode != 200 then false
  else if !gzipable (grw.writer.header.Get "Content-Type") then false
  else decide (length > minGzipSize) || decide (grw.contentLength > minGzipSize)

/-- `grw.checkContentLength()`. -/
def checkContentLength (grw : gzipRespWriter) : gzipRespWriter :=
  if grw.contentLength > 0 || grw.written then grw
  else
    let cl := grw.Header.Get "Content-Length"
    if cl.length > 0 then
      match parseInt32 cl with
      | some t =>
        let g1 := { grw with contentLength := t }
        if g1.canGzip g1.origBytes then g1.setHeader else g1
      | none => grw
    else grw

/-- `grw.finish()`.  The encoder writes into `grw.sw`. -/
def finish (wd : World) (grw : gzipRespWriter) : gzipRespWriter :=
  match grw.gzipWriter with
  | none => grw
  | some z =>
    let g1 := grw.setHeader
    let r := z.Close wd (g1.sw.getD ⟨0⟩) g1.writer
    { g1 with writer := r.2.2.1, sw := g1.sw.map (fun _ => r.2.1), gzipWriter := none }

/-- `Write`, lines 64-68: the `Content-Type` default, then `checkContentLength`.
This is the decorator on which `Write` evaluates `canGzip`. -/
def atDecision (wd : World) (grw : gzipRespWriter) (data : Bytes) : gzipRespWriter :=
  let g1 :=
    if grw.writer.header.Get "Content-Type" == "" then
      { grw with writer := { grw.writer with
          header := grw.writer.header.Set "Content-Type" (wd.DetectContentType data) } }
    else grw
  g1.checkContentLength

/-- `Write`, lines 70-78: the decision, taken when nothing was written before,
then `written` and `origBytes`. -/
def decided (g2 : gzipRespWriter) (data : Bytes) : gzipRespWriter :=
  let g3 :=
    if !g2.written then
      let g := { g2 with gzipContent := g2.canGzip (data.length : Int) }
      if g.gzipContent then g.setHeader else g
    else g2
  { g3 with written := true, origBytes := g3.origBytes + (data.length : Int) }

/-- `Write`, lines 81-84: the byte-counting sink and the encoder are made when
there is no byte-counting sink yet. -/
def withPipeline (g4 : gzipRespWriter) : gzipRespWriter :=
  if g4.sw.isNone then { g4 with sw := some ⟨0⟩, gzipWriter := some GzipWriter.new } else g4

/-- `Write`, lines 85-89: the chunk goes to the encoder `z`, which writes into
`grw.sw`; `finish` when the hint is reached or the encoder returned an error. -/
def throughEncoder (wd : World) (g5 : gzipRespWriter) (z : GzipWriter) (data : Bytes) :
    gzipRespWriter × WriteResult :=
  let r := z.Write wd (g5.sw.getD ⟨0⟩) g5.writer data
  let g6 :=
    { g5 with writer := r.2.2.1, sw := g5.sw.map (fun _ => r.2.1), gzipWriter := some r.1 }
  (if g6.origBytes == g6.contentLength || r.2.2.2.2.isSome then g6.finish wd else g6, r.2.2.2)

/-- `Write`, lines 80-92: the chunk goes through the encoder or straight to the
sink; `none` is the nil-pointer fault of `grw.gzipWriter.Write` on a cleared encoder. -/
def deliver (wd : World) (g4 : gzipRespWriter) (data : Bytes) :
    gzipRespWriter × Option WriteResult :=
  if g4.gzipContent then
    match g4.withPipeline.gzipWriter with
    | none => (g4.withPipeline, none)
    | some z =>
      ((throughEncoder wd g4.withPipeline z data).1, some (throughEncoder wd g4.withPipeline z data).2)
  else
    ({ g4 with writer := (g4.writer.Write wd data).1 }, some (g4.writer.Write wd data).2)

/-- `grw.Write(data)`: the decorator afterwards, and what the call returned
(`none` when it faulted). -/
def Write (wd : World) (grw : gzipRespWriter) (data : Bytes) :
    gzipRespWriter × Option WriteResult :=
  deliver wd (decided (grw.atDecision wd data) data) data

/-- Compression is ruled out whatever the length and the hint: the client does
not accept gzip, or the status is not 200. -/
def Blocked (g : gzipRespWriter) : Prop :=
  acceptGzip g.request = false ∨ g.statusCode ≠ 200

/-- `grw.WriteHeader(statusCode)`. -/
def WriteHeader (grw : gzipRespWriter) (statusCode : Int) : gzipRespWriter :=
  let g1 := { grw with statusCode := statusCode }
  let g2 := g1.checkContentLength
  { g2 with writer := g2.writer.WriteHeader statusCode }

/-- `grw.getBytesWritten()`; `none` is the nil-pointer fault of `grw.sw.bytes`. -/
def getBytesWritten (grw : gzipRespWriter) : Option Int :=
  if grw.gzipContent then grw.sw.map (fun sw => sw.bytes) else some grw.origBytes

end gzipRespWriter

/-! ## Calls made on a decorator -/

/-- One thing a handler does with the decorator it was given: leave the header
map (which it reaches through `Header()`) with the contents `h`, call
`WriteHeader`, or call `Write`; `finish` is the call `ServeHTTP` makes. -/
inductive Op where
  | headers (h : Header)
  | WriteHeader (statusCode : Int)
  | Write (data : Bytes)
  | finish
deriving DecidableEq, Repr

/-- One call: the decorator afterwards, and whether the call faulted. -/
def step (wd : World) (grw : gzipRespWriter) : Op → gzipRespWriter × Bool
  | .headers h => ({ grw with writer := { grw.writer with header := h } }, false)
  | .WriteHeader statusCode => (grw.WriteHeader statusCode, false)
  | .Write data => ((grw.Write wd data).1, (grw.Write wd data).2.isNone)
  | .finish => (grw.finish wd, false)

/-- The decorator after a sequence of calls (a faulting `Write` leaves it as it
was at the fault). -/
def exec (wd : World) (grw : gzipRespWriter) (ops : List Op) : gzipRespWriter :=
  ops.foldl (fun g op => (step wd g op).1) grw

/-- No call of the sequence faults. -/
def faultFree (wd : World) : gzipRespWriter → List Op → Bool
  | _, [] => true
  | g, op :: ops => !(step wd g op).2 && faultFree wd (step wd g op).1 ops

/-- The decorator after a sequence of calls, `none` if one of them faulted. -/
def run (wd : World) (grw : gzipRespWriter) (ops : List Op) : Option gzipRespWriter :=
  if faultFree wd grw ops then some (exec wd grw ops) else none

/-- The chunks a sequence of calls writes, in order. -/
def chunksOf : List Op → List Bytes
  | [] => []
  | .Write data :: ops => data :: chunksOf ops
  | _ :: ops => chunksOf ops

/-- Up to the first `Write`, every header map the handler leaves behind has
`Content-Length` equal to `cl`. -/
def keepsLength (cl : String) : List Op → Bool
  | [] => true
  | .headers h :: ops => h.Get "Content-Length" == cl && keepsLength cl ops
  | .Write _ :: _ => true
  | _ :: ops => keepsLength cl ops

/-- The part of a header value before its first `;` (the whole value if there is none). -/
def beforeSemicolon (ct : String) : String := ⟨ct.data.takeWhile (fun c => c != ';')⟩

/-- Bytes the encoder hands to its sink while the chunks are written one after
the other, `fed` being its input before them. -/
def emitAll (wd : World) : Bytes → List Bytes → Bytes
  | _, [] => []
  | fed, c :: cs => wd.gzEmit fed c ++ emitAll wd (fed ++ c) cs

/-- The whole stream the encoder produces for the chunks: what it hands over
while they are written, then what it hands over when closed. -/
def gzStream (wd : World) (chunks : List Bytes) : Bytes :=
  emitAll wd [] chunks ++ wd.gzClose chunks.flatten

/-- The running total of bytes written (`n` so far) equals the hint `H` after
no `Write` of the sequence but, possibly, the last one. -/
def hintOnlyAtEnd (H : Int) : Int → List Op → Bool
  | _, [] => true
  | n, .Write d :: ops =>
    (n + (d.length : Int) != H || (chunksOf ops).isEmpty) &&
      hintOnlyAtEnd H (n + (d.length : Int)) ops
  | n, _ :: ops => hintOnlyAtEnd H n ops

/-- Nothing was written yet on the decorator. -/
def Pristine (g : gzipRespWriter) : Prop :=
  g.written = false ∧ g.gzipContent = false ∧ g.gzipWriter = none ∧ g.sw = none ∧
  g.writer.writes.flatten = [] ∧ g.origBytes = 0

/-- The decorator is compressing and its encoder is open, having taken the
chunks `cs`; the sink holds what the encoder handed over for them. -/
def Encoding (wd : World) (g : gzipRespWriter) (cs : List Bytes) : Prop :=
  g.written = true ∧ g.gzipContent = true ∧ g.sw.isSome = true ∧
  g.gzipWriter = some ⟨cs.flatten, none, false⟩ ∧
  g.writer.writes.flatten = emitAll wd [] cs ∧ g.origBytes = (cs.flatten.length : Int)

/-- The decorator was compressing and its encoder has been closed and cleared;
the sink holds the whole stream for the chunks `cs`. -/
def Finished (wd : World) (g : gzipRespWriter) (cs : List Bytes) : Prop :=
  g.written = true ∧ g.gzipContent = true ∧ g.gzipWriter = none ∧
  g.writer.writes.flatten = gzStream wd cs

/-- The `Content-Type` in force when `Write` decides: the one in the map, or, the
map having none, the one sniffed from the chunk (lines 64-66). -/
def contentTypeAt (wd : World) (h : Header) (data : Bytes) : String :=
  if h.Get "Content-Type" == "" then wd.DetectContentType data else h.Get "Content-Type"

/-- The decorator as `Write` has it when it reaches the encoder (line 85): the
decision taken, the totals updated, the pipeline made if there was none. -/
def atEncoder (wd : World) (grw : gzipRespWriter) (data : Bytes) : gzipRespWriter :=
  (gzipRespWriter.decided (grw.atDecision wd data) data).withPipeline

/-- The decorator right after line 85: the encoder `z` has been given the chunk
and has written into the byte-counting sink. -/
def afterEncoder (wd : World) (g5 : gzipRespWriter) (z : GzipWriter) (data : Bytes) :
    gzipRespWriter :=
  { g5 with
    writer := (z.Write wd (g5.sw.getD ⟨0⟩) g5.writer data).2.2.1
    sw := g5.sw.map (fun _ => (z.Write wd (g5.sw.getD ⟨0⟩) g5.writer data).2.1)
    gzipWriter := some (z.Write wd (g5.sw.getD ⟨0⟩) g5.writer data).1 }

/-- A sequence of writes on the wrapped sink alone: the sink afterwards and the
result of each write. -/
def sinkWriteAll (wd : World) : ResponseWriter → List Bytes → ResponseWriter × List WriteResult
  | w, [] => (w, [])
  | w, d :: ds =>
    ((sinkWriteAll wd (w.Write wd d).1 ds).1, (w.Write wd d).2 :: (sinkWriteAll wd (w.Write wd d).1 ds).2)

/-- The same sequence of writes through a `statWriter` around the sink: the
`statWriter` and the sink afterwards, and the result of each write. -/
def statWriteAll (wd : World) :
    statWriter → ResponseWriter → List Bytes → statWriter × ResponseWriter × List WriteResult
  | sw, w, [] => (sw, w, [])
  | sw, w, d :: ds =>
    ((statWriteAll wd (sw.Write wd w d).1 (sw.Write wd w d).2.1 ds).1,
     (statWriteAll wd (sw.Write wd w d).1 (sw.Write wd w d).2.1 ds).2.1,
     (sw.Write wd w d).2.2 :: (statWriteAll wd (sw.Write wd w d).1 (sw.Write wd w d).2.1 ds).2.2)

/-- The sum of the counts of the results that carry no error. -/
def countedBytes : List WriteResult → Int
  | [] => 0
  | (n, none) :: rs => n + countedBytes rs
  | (_, some _) :: rs => countedBytes rs

/-- The sum of the counts of all results, with or without error. -/
def confirmedBytes : List WriteResult → Int
  | [] => 0
  | (n, _) :: rs => n + confirmedBytes rs

/-! ## The logging handler -/

/-- `HttpLogGzipHandler`: the wrapped handler, as the calls it makes on the
decorator, and the log sink, as the writes it has received. -/
structure HttpLogGzipHandler where
  impl : List Op
  logWriter : List String
deriving DecidableEq, Repr

/-- The `fmt.Sprintf` of `ServeHTTP`. -/
def logLine (ip method uri : String) (status tx raw millis : Int)
    (referer contentType userAgent : String) : String :=
  ip ++ " " ++ method ++ " " ++ uri ++ " " ++ toString status ++ " " ++ toString tx ++ "/" ++
    toString raw ++ " " ++ toString millis ++ "ms " ++ referer ++ " '" ++ contentType ++ "' " ++
    userAgent

/-- `HttpLogGzipHandler.ServeHTTP`, with the elapsed milliseconds given: the
handler (its log sink one write longer) and the response sink afterwards; `none`
when the handler, the slice of `RemoteAddr` or `getBytesWritten` faults. -/
def HttpLogGzipHandler.ServeHTTP (wd : World) (handler : HttpLogGzipHandler) (millis : Int)
    (w : ResponseWriter) (r : Request) : Option (HttpLogGzipHandler × ResponseWriter) :=
  match run wd (newGzipRespWriter w r) handler.impl with
  | none => none
  | some g1 =>
    let gzipWriter := g1.finish wd
    let contentType := gzipWriter.writer.header.Get "Content-Type"
    match beforeLastChars ':' r.RemoteAddr.data with
    | none => none
    | some ipChars =>
      let referer := if r.Referer.length == 0 then "-" else r.Referer
      match gzipWriter.getBytesWritten with
      | none => none
      | some tx =>
        some ({ handler with
                logWriter := handler.logWriter ++
                  [logLine ⟨ipChars⟩ r.Method r.RequestURI gzipWriter.statusCode tx
                    gzipWriter.origBytes millis referer contentType r.UserAgent] },
              gzipWriter.writer)

/-! ## A concrete world for evaluating the definitions -/

/-- A world whose sink takes every byte, whose encoder passes its input through
(the identity codec), and whose sniffer answers `application/octet-stream`. -/
def plainWorld : World :=
  { DetectContentType := fun _ => "application/octet-stream"
    sinkWrite := fun _ data => ((data.length : Int), none)
    gzEmit := fun _ p => p
    gzClose := fun _ => [] }

/-- A request from `10.0.0.1:4711` with the given `Accept-Encoding`. -/
def requestAccepting (ae : String) : Request :=
  { Method := "GET", RequestURI := "/", RemoteAddr := "10.0.0.1:4711",
    Header := ⟨[("Accept-Encoding", [ae]), ("User-Agent", ["curl"])]⟩ }

/-- A response sink that has received nothing, with the given header map. -/
def freshSink (h : Header) : ResponseWriter := { header := h, writes := [], statuses := [] }

/-- A body of `n` bytes. -/
def body (n : Nat) : Bytes := List.replicate n 65

/-- Header map of a JSON response that announces `Content-Length: 2000`. -/
def jsonHeaders2000 : Header :=
  ⟨[("Content-Type", ["application/json"]), ("Content-Length", ["2000"])]⟩

/-- A decorator on which nothing was written yet: the handler announced
`Content-Length: 2000`, called `WriteHeader(200)` (which made the header
mutation), and then put `Content-Length: 2000` back into the map. -/
def lengthRestored : gzipRespWriter :=
  exec plainWorld (newGzipRespWriter (freshSink jsonHeaders2000) (requestAccepting "gzip"))
    [.WriteHeader 200,
     .headers ⟨[("Content-Length", ["2000"]), ("Content-Encoding", ["gzip"]),
                ("Content-Type", ["application/json"])]⟩]

/-- Header map of a plain-text response that announces `Content-Length: 8`. -/
def textHeaders8 : Header :=
  ⟨[("Content-Type", ["text/plain"]), ("Content-Length", ["8"])]⟩

/-- A decorator on which the first `Write` (the first 16 bytes of an announced
2000) has chosen compression. -/
def compressing : gzipRespWriter :=
  ((newGzipRespWriter (freshSink jsonHeaders2000) (requestAccepting "gzip")).Write
    plainWorld (body 16)).1

/-- A world like `plainWorld` but for a sink that fails every write, and an
encoder that ends its stream with one closing byte. -/
def brokenPipeWorld : World :=
  { DetectContentType := fun _ => "application/octet-stream"
    sinkWrite := fun _ _ => (0, some "broken pipe")
    gzEmit := fun _ p => p
    gzClose := fun _ => [0] }

/-- The decoder for the encoder of `brokenPipeWorld`: the stream without its
closing byte; a stream that lacks the closing byte does not decode. -/
def dropClosingByte (s : Bytes) : Option Bytes :=
  match s.reverse with
  | 0 :: r => some r.reverse
  | _ => none

/-- A world whose sink takes the first three bytes of every write and reports a
short write. -/
def shortWriteWorld : World :=
  { DetectContentType := fun _ => "application/octet-stream"
    sinkWrite := fun _ _ => (3, some "short write")
    gzEmit := fun _ p => p
    gzClose := fun _ => [] }

/-- Header map of a JSON response whose `Content-Length` is not a number. -/
def jsonHeadersBadLength : Header :=
  ⟨[("Content-Type", ["application/json"]), ("Content-Length", ["12abc"])]⟩

/-- The header map of `jsonHeaders2000` after `WriteHeader(200)` made the header
mutation and the handler then announced `Content-Length: 8`. -/
def lengthLowered : Header :=
  ⟨[("Content-Length", ["8"]), ("Content-Encoding", ["gzip"]),
    ("Content-Type", ["application/json"])]⟩

/-- A request from `10.0.0.1:4711` for `/index.html` that accepts gzip and
carries a `Referer`. -/
def requestWithReferer : Request :=
  { Method := "GET", RequestURI := "/index.html", RemoteAddr := "10.0.0.1:4711",
    Header := ⟨[("Accept-Encoding", ["gzip"]), ("User-Agent", ["curl"]),
                ("Referer", ["http://example.org/"])]⟩ }

end GoHttpHandler

namespace GoHttpHandler

/-! ## Header maps -/

theorem lookup_filter_key (l : List (String × List String)) (k k2 : String) :
    (l.filter (fun p => p.1 != k2)).lookup k = if k = k2 then none else l.lookup k := by
  induction l with
  | nil => simp
  | cons p l ih =>
    obtain ⟨a, b⟩ := p
    by_cases h2 : a = k2
    · subst h2
      simp only [List.filter_cons, bne_self_eq_false, Bool.false_eq_true, ↓reduceIte, ih,
        List.lookup_cons]
      by_cases hk : k = a
      · simp [hk]
      · have : (k == a) = false := by simpa using hk
        simp [hk, this]
    · have hne : (a != k2) = true := by simpa using h2
      simp only [List.filter_cons, hne, ↓reduceIte, List.lookup_cons, ih]
      by_cases hk : k = a
      · subst hk
        simp [h2]
      · have : (k == a) = false := by simpa using hk
        simp [this]

theorem Header.Get_Set_same (h : Header) (k v : String) : (h.Set k v).Get k = v := by
  simp [Header.Get, Header.Set, List.lookup_cons]

theorem Header.Get_Set_other (h : Header) (k k2 v : String) (hk : k ≠ k2) :
    (h.Set k2 v).Get k = h.Get k := by
  have : (k == k2) = false := by simpa using hk
  simp [Header.Get, Header.Set, List.lookup_cons, this, lookup_filter_key, hk]

theorem Header.Has_Set_other (h : Header) (k k2 v : String) (hk : k ≠ k2) :
    (h.Set k2 v).Has k = h.Has k := by
  have : (k == k2) = false := by simpa using hk
  simp [Header.Has, Header.Set, List.lookup_cons, this, lookup_filter_key, hk]

theorem Header.Get_Del_other (h : Header) (k k2 : String) (hk : k ≠ k2) :
    (h.Del k2).Get k = h.Get k := by
  simp [Header.Get, Header.Del, lookup_filter_key, hk]

theorem Header.Has_Del_same (h : Header) (k : String) : (h.Del k).Has k = false := by
  simp [Header.Has, Header.Del, lookup_filter_key]

theorem Header.Get_of_not_Has (h : Header) (k : String) (hk : h.Has k = false) :
    h.Get k = "" := by
  unfold Header.Has at hk
  unfold Header.Get
  cases hl : h.entries.lookup k with
  | none => rfl
  | some v => rw [hl] at hk; simp at hk

end GoHttpHandler

namespace GoHttpHandler

open gzipRespWriter

/-! ## What each method leaves alone -/

theorem sinkWrite_header (wd : World) (w : ResponseWriter) (data : Bytes) :
    (w.Write wd data).1.header = w.header := rfl

theorem statWrite_header (wd : World) (sw : statWriter) (w : ResponseWriter)
    (data : Bytes) : (sw.Write wd w data).2.1.header = w.header := rfl

theorem gzipWrite_header (wd : World) (z : GzipWriter) (sw : statWriter)
    (w : ResponseWriter) (p : Bytes) : (z.Write wd sw w p).2.2.1.header = w.header := by
  unfold GzipWriter.Write
  split
  · rfl
  · simp only
    split
    · rfl
    · split <;> rfl

theorem gzipClose_header (wd : World) (z : GzipWriter) (sw : statWriter)
    (w : ResponseWriter) : (z.Close wd sw w).2.2.1.header = w.header := by
  unfold GzipWriter.Close
  split
  · rfl
  · split <;> rfl

namespace gzipRespWriter

theorem setHeader_headerSet (g : gzipRespWriter) : g.setHeader.headerSet = true := by
  unfold setHeader
  split
  · assumption
  · rfl

theorem setHeader_of_headerSet (g : gzipRespWriter) (h : g.headerSet = true) :
    g.setHeader = g := by
  simp [setHeader, h]

theorem setHeader_frame (g : gzipRespWriter) :
    g.setHeader.written = g.written ∧ g.setHeader.gzipContent = g.gzipContent ∧
    g.setHeader.statusCode = g.statusCode ∧ g.setHeader.origBytes = g.origBytes ∧
    g.setHeader.contentLength = g.contentLength ∧ g.setHeader.request = g.request ∧
    g.setHeader.sw = g.sw ∧ g.setHeader.gzipWriter = g.gzipWriter ∧
    g.setHeader.writer.writes = g.writer.writes ∧
    g.setHeader.writer.statuses = g.writer.statuses := by
  unfold setHeader
  split <;> simp

theorem setHeader_gzipped (g : gzipRespWriter)
    (h : g.headerSet = true → g.writer.header.Gzipped) : g.setHeader.writer.header.Gzipped := by
  unfold setHeader
  split
  · exact h (by assumption)
  · refine ⟨?_, ?_⟩
    · show ((g.writer.header.Set "Content-Encoding" "gzip").Del "Content-Length").Get
        "Content-Encoding" = "gzip"
      rw [Header.Get_Del_other _ _ _ (by decide), Header.Get_Set_same]
    · exact Header.Has_Del_same _ _

end gzipRespWriter

end GoHttpHandler

namespace GoHttpHandler

namespace gzipRespWriter

/-- `checkContentLength` touches only the hint, `headerSet` and the header map. -/
theorem checkContentLength_shape (g : gzipRespWriter) :
    ∃ cl hs h, g.checkContentLength =
      { g with contentLength := cl, headerSet := hs, writer := { g.writer with header := h } } := by
  unfold checkContentLength
  split
  · exact ⟨_, _, _, rfl⟩
  · simp only
    split
    · split
      · split
        · unfold setHeader
          split
          · exact ⟨_, _, _, rfl⟩
          · exact ⟨_, _, _, rfl⟩
        · exact ⟨_, _, _, rfl⟩
      · exact ⟨_, _, _, rfl⟩
    · exact ⟨_, _, _, rfl⟩

theorem checkContentLength_gzipped (g : gzipRespWriter)
    (h : g.headerSet = true → g.writer.header.Gzipped) :
    g.checkContentLength.headerSet = true → g.checkContentLength.writer.header.Gzipped := by
  unfold checkContentLength
  split
  · exact h
  · simp only
    split
    · split
      · split
        · intro _
          exact setHeader_gzipped _ h
        · exact h
      · exact h
    · exact h

theorem checkContentLength_of_headerSet (g : gzipRespWriter) (h : g.headerSet = true) :
    g.checkContentLength.headerSet = true ∧
    g.checkContentLength.writer.header = g.writer.header := by
  unfold checkContentLength
  split
  · exact ⟨h, rfl⟩
  · simp only
    split
    · split
      · split
        · rw [setHeader_of_headerSet _ (by exact h)]
          exact ⟨h, rfl⟩
        · exact ⟨h, rfl⟩
      · exact ⟨h, rfl⟩
    · exact ⟨h, rfl⟩

/-- `finish` touches only the sink, the byte counter, the encoder and `headerSet`. -/
theorem finish_shape (wd : World) (g : gzipRespWriter) :
    ∃ w sw hs, g.finish wd = { g with writer := w, sw := sw, headerSet := hs, gzipWriter := none } ∨
      g.finish wd = g := by
  unfold finish
  split
  · exact ⟨g.writer, none, false, Or.inr rfl⟩
  · unfold setHeader
    split
    · exact ⟨_, _, _, Or.inl rfl⟩
    · exact ⟨_, _, _, Or.inl rfl⟩

theorem finish_frame (wd : World) (g : gzipRespWriter) :
    (g.finish wd).written = g.written ∧ (g.finish wd).gzipContent = g.gzipContent ∧
    (g.finish wd).statusCode = g.statusCode ∧ (g.finish wd).origBytes = g.origBytes ∧
    (g.finish wd).contentLength = g.contentLength ∧ (g.finish wd).request = g.request := by
  obtain ⟨w, sw, hs, e | e⟩ := finish_shape wd g <;> rw [e] <;> simp

theorem finish_header (wd : World) (g : gzipRespWriter) (h : g.headerSet = true) :
    (g.finish wd).headerSet = true ∧ (g.finish wd).writer.header = g.writer.header := by
  unfold finish
  split
  · exact ⟨h, rfl⟩
  · rw [setHeader_of_headerSet _ h]
    exact ⟨h, gzipClose_header _ _ _ _⟩

theorem finish_gzipped (wd : World) (g : gzipRespWriter)
    (h : g.headerSet = true → g.writer.header.Gzipped) :
    (g.finish wd).headerSet = true → (g.finish wd).writer.header.Gzipped := by
  unfold finish
  split
  · exact h
  · intro _
    simp only [gzipClose_header]
    exact setHeader_gzipped _ h

theorem withPipeline_frame (g : gzipRespWriter) :
    ∃ sw gz, g.withPipeline = { g with sw := sw, gzipWriter := gz } := by
  unfold withPipeline
  split
  · exact ⟨_, _, rfl⟩
  · exact ⟨_, _, rfl⟩

theorem throughEncoder_frame (wd : World) (g : gzipRespWriter) (z : GzipWriter) (data : Bytes) :
    (throughEncoder wd g z data).1.written = g.written ∧
    (throughEncoder wd g z data).1.gzipContent = g.gzipContent ∧
    (throughEncoder wd g z data).1.statusCode = g.statusCode ∧
    (throughEncoder wd g z data).1.origBytes = g.origBytes ∧
    (throughEncoder wd g z data).1.contentLength = g.contentLength ∧
    (throughEncoder wd g z data).1.request = g.request := by
  unfold throughEncoder
  simp only
  split
  · simp only [finish_frame, and_self]
  · simp

theorem throughEncoder_header (wd : World) (g : gzipRespWriter) (z : GzipWriter) (data : Bytes)
    (h : g.headerSet = true) :
    (throughEncoder wd g z data).1.headerSet = true ∧
    (throughEncoder wd g z data).1.writer.header = g.writer.header := by
  unfold throughEncoder
  simp only
  split
  · refine ⟨(finish_header wd _ (by exact h)).1, ?_⟩
    rw [(finish_header wd _ (by exact h)).2]
    exact gzipWrite_header _ _ _ _ _
  · exact ⟨h, gzipWrite_header _ _ _ _ _⟩

theorem deliver_frame (wd : World) (g : gzipRespWriter) (data : Bytes) :
    (deliver wd g data).1.written = g.written ∧
    (deliver wd g data).1.gzipContent = g.gzipContent ∧
    (deliver wd g data).1.statusCode = g.statusCode ∧
    (deliver wd g data).1.origBytes = g.origBytes ∧
    (deliver wd g data).1.contentLength = g.contentLength ∧
    (deliver wd g data).1.request = g.request := by
  obtain ⟨sw, gz, e⟩ := withPipeline_frame g
  unfold deliver
  split
  · split
    · rw [e]; simp
    · simp only [throughEncoder_frame]
      rw [e]; simp
  · simp

theorem deliver_header (wd : World) (g : gzipRespWriter) (data : Bytes)
    (h : g.headerSet = true) :
    (deliver wd g data).1.headerSet = true ∧
    (deliver wd g data).1.writer.header = g.writer.header := by
  obtain ⟨sw, gz, e⟩ := withPipeline_frame g
  have h5 : g.withPipeline.headerSet = true := by rw [e]; exact h
  have h5w : g.withPipeline.writer.header = g.writer.header := by rw [e]
  unfold deliver
  split
  · split
    · exact ⟨h5, h5w⟩
    · exact ⟨(throughEncoder_header wd _ _ _ h5).1,
        (throughEncoder_header wd _ _ _ h5).2.trans h5w⟩
  · exact ⟨h, rfl⟩

end gzipRespWriter

end GoHttpHandler

namespace GoHttpHandler

namespace gzipRespWriter

theorem atDecision_shape (wd : World) (g : gzipRespWriter) (data : Bytes) :
    ∃ cl hs h, g.atDecision wd data =
      { g with contentLength := cl, headerSet := hs, writer := { g.writer with header := h } } := by
  unfold atDecision
  simp only
  split
  · obtain ⟨cl, hs, h, e⟩ := checkContentLength_shape
      { g with writer := { g.writer with
          header := g.writer.header.Set "Content-Type" (wd.DetectContentType data) } }
    exact ⟨cl, hs, h, e⟩
  · exact checkContentLength_shape g

theorem atDecision_gzipped (wd : World) (g : gzipRespWriter) (data : Bytes)
    (h : g.headerSet = true → g.writer.header.Gzipped) :
    (g.atDecision wd data).headerSet = true → (g.atDecision wd data).writer.header.Gzipped := by
  unfold atDecision
  simp only
  split
  · apply checkContentLength_gzipped
    intro hs
    have hg := h hs
    exact ⟨by
      show (g.writer.header.Set "Content-Type" _).Get "Content-Encoding" = "gzip"
      rw [Header.Get_Set_other _ _ _ _ (by decide)]; exact hg.1, by
      show (g.writer.header.Set "Content-Type" _).Has "Content-Length" = false
      rw [Header.Has_Set_other _ _ _ _ (by decide)]; exact hg.2⟩
  · exact checkContentLength_gzipped g h

end gzipRespWriter

/-- C1 (as amended): on a decorator on which nothing was written yet and whose
header mutation, if already made, is still in the map, a first `Write` at which
`canGzip` holds leaves `Content-Encoding: gzip` and no `Content-Length` entry. -/
theorem first_write_sets_compression_headers (wd : World) (grw : gzipRespWriter) (data : Bytes)
    (hw : grw.written = false)
    (hh : grw.headerSet = true →
      grw.writer.header.Get "Content-Encoding" = "gzip" ∧
      grw.writer.header.Has "Content-Length" = false)
    (hc : (grw.atDecision wd data).canGzip (data.length : Int) = true) :
    (grw.Write wd data).1.writer.header.Get "Content-Encoding" = "gzip" ∧
    (grw.Write wd data).1.writer.header.Has "Content-Length" = false ∧
    (grw.Write wd data).1.gzipContent = true := by
  have hw2 : (grw.atDecision wd data).written = false := by
    obtain ⟨cl, hs, h, e⟩ := gzipRespWriter.atDecision_shape wd grw data
    rw [e]; exact hw
  have hg2 := gzipRespWriter.atDecision_gzipped wd grw data hh
  have hd : (gzipRespWriter.decided (grw.atDecision wd data) data).headerSet = true ∧
      (gzipRespWriter.decided (grw.atDecision wd data) data).gzipContent = true ∧
      (gzipRespWriter.decided (grw.atDecision wd data) data).writer.header.Gzipped := by
    unfold gzipRespWriter.decided
    simp only [hw2, hc, Bool.not_false, if_true]
    refine ⟨gzipRespWriter.setHeader_headerSet _, ?_, gzipRespWriter.setHeader_gzipped _ hg2⟩
    rw [(gzipRespWriter.setHeader_frame _).2.1]
  unfold gzipRespWriter.Write
  rw [(gzipRespWriter.deliver_header wd _ data hd.1).2,
    (gzipRespWriter.deliver_frame wd _ data).2.1]
  exact ⟨hd.2.2.1, hd.2.2.2, hd.2.1⟩

/-- C1 witness: a fresh decorator, a JSON response announcing 2000 bytes, the
first 16 of them written. -/
theorem first_write_sets_compression_headers_witness :
    ((newGzipRespWriter (freshSink jsonHeaders2000) (requestAccepting "gzip")).Write
        plainWorld (body 16)).1.writer.header.Get "Content-Encoding" = "gzip" ∧
    ((newGzipRespWriter (freshSink jsonHeaders2000) (requestAccepting "gzip")).Write
        plainWorld (body 16)).1.writer.header.Has "Content-Length" = false ∧
    ((newGzipRespWriter (freshSink jsonHeaders2000) (requestAccepting "gzip")).Write
        plainWorld (body 16)).1.gzipContent = true :=
  first_write_sets_compression_headers plainWorld
    (newGzipRespWriter (freshSink jsonHeaders2000) (requestAccepting "gzip")) (body 16)
    (by decide) (by decide) (by decide)

/-- C1 (as stated) fails: nothing was written yet and `canGzip` holds at the first
`Write` (of the first 16 bytes of the 2000), yet the map has a `Content-Length`
entry when that `Write` returns. -/
theorem first_write_keeps_restored_length :
    lengthRestored.written = false ∧
    (lengthRestored.atDecision plainWorld (body 16)).canGzip ((body 16).length : Int) = true ∧
    (lengthRestored.Write plainWorld (body 16)).1.writer.header.Has "Content-Length" = true := by
  decide

end GoHttpHandler

namespace GoHttpHandler

theorem Header.lookup_Set_other (h : Header) (k k2 v : String) (hk : k ≠ k2) :
    (h.Set k2 v).entries.lookup k = h.entries.lookup k := by
  have : (k == k2) = false := by simpa using hk
  simp [Header.Set, List.lookup_cons, this, lookup_filter_key, hk]

namespace gzipRespWriter

theorem canGzip_blocked (g : gzipRespWriter) (n : Int) (h : g.Blocked) : g.canGzip n = false := by
  unfold canGzip
  rcases h with h | h
  · simp [h]
  · simp [h]

theorem canGzip_iff (g : gzipRespWriter) (n : Int) :
    g.canGzip n = true ↔
      acceptGzip g.request = true ∧ g.statusCode = 200 ∧
      gzipable (g.writer.header.Get "Content-Type") = true ∧
      (n > 1024 ∨ g.contentLength > 1024) := by
  unfold canGzip minGzipSize
  by_cases h1 : acceptGzip g.request = true <;> by_cases h2 : g.statusCode = 200 <;>
    by_cases h3 : gzipable (g.writer.header.Get "Content-Type") = true <;> simp [h1, h2, h3]

theorem checkContentLength_blocked (g : gzipRespWriter) (h : g.Blocked) :
    ∃ cl, g.checkContentLength = { g with contentLength := cl } := by
  unfold checkContentLength
  split
  · exact ⟨_, rfl⟩
  · simp only
    split
    · split
      · rw [if_neg]
        · exact ⟨_, rfl⟩
        · rw [canGzip_blocked _ _ (by exact h)]
          simp
      · exact ⟨_, rfl⟩
    · exact ⟨_, rfl⟩

theorem atDecision_blocked (wd : World) (g : gzipRespWriter) (data : Bytes) (h : g.Blocked) :
    ∃ cl hd, g.atDecision wd data =
        { g with contentLength := cl, writer := { g.writer with header := hd } } ∧
      hd.entries.lookup "Content-Encoding" = g.writer.header.entries.lookup "Content-Encoding" := by
  unfold atDecision
  simp only
  split
  · obtain ⟨cl, e⟩ := checkContentLength_blocked
      { g with writer := { g.writer with
          header := g.writer.header.Set "Content-Type" (wd.DetectContentType data) } } h
    exact ⟨cl, _, e, Header.lookup_Set_other _ _ _ _ (by decide)⟩
  · obtain ⟨cl, e⟩ := checkContentLength_blocked g h
    exact ⟨cl, _, e, rfl⟩

/-- A `Write` whose decision is against compression hands the chunk to the sink
and returns the sink's result. -/
theorem Write_of_not_gzipContent (wd : World) (g : gzipRespWriter) (data : Bytes)
    (h : (decided (g.atDecision wd data) data).gzipContent = false) :
    g.Write wd data =
      ({ decided (g.atDecision wd data) data with
          writer := ((decided (g.atDecision wd data) data).writer.Write wd data).1 },
        some (wd.sinkWrite (decided (g.atDecision wd data) data).writer data)) := by
  unfold Write deliver
  simp [h, ResponseWriter.Write]

theorem decided_blocked (g : gzipRespWriter) (data : Bytes) (h : g.Blocked)
    (hg : g.gzipContent = false) :
    decided g data =
      { g with written := true, origBytes := g.origBytes + (data.length : Int) } := by
  unfold decided
  by_cases hw : g.written = true
  · simp [hw]
  · simp [hw, canGzip_blocked _ _ h, hg]

/-- With compression ruled out and not chosen, `Write` is the pass-through. -/
theorem Write_blocked (wd : World) (g : gzipRespWriter) (data : Bytes) (h : g.Blocked)
    (hg : g.gzipContent = false) :
    ∃ cl hd,
      hd.entries.lookup "Content-Encoding" = g.writer.header.entries.lookup "Content-Encoding" ∧
      (g.atDecision wd data).writer = { g.writer with header := hd } ∧
      g.Write wd data =
        ({ g with
            contentLength := cl, written := true,
            origBytes := g.origBytes + (data.length : Int),
            writer := { g.writer with header := hd, writes := g.writer.writes ++ [data] } },
          some (wd.sinkWrite { g.writer with header := hd } data)) := by
  obtain ⟨cl, hd, e, hce⟩ := atDecision_blocked wd g data h
  have hb : (g.atDecision wd data).Blocked := by rw [e]; exact h
  have hg2 : (g.atDecision wd data).gzipContent = false := by rw [e]; exact hg
  have hdec := decided_blocked (g.atDecision wd data) data hb hg2
  refine ⟨cl, hd, hce, by rw [e], ?_⟩
  rw [Write_of_not_gzipContent wd g data (by rw [hdec]; exact hg2), hdec, e]
  rfl

theorem WriteHeader_blocked (g : gzipRespWriter) (statusCode : Int)
    (h : acceptGzip g.request = false ∨ statusCode ≠ 200) :
    ∃ cl, g.WriteHeader statusCode =
      { g with statusCode := statusCode, contentLength := cl,
               writer := { g.writer with statuses := g.writer.statuses ++ [statusCode] } } := by
  unfold WriteHeader
  obtain ⟨cl, e⟩ := checkContentLength_blocked { g with statusCode := statusCode } h
  simp only [e]
  exact ⟨cl, rfl⟩

theorem finish_of_no_encoder (wd : World) (g : gzipRespWriter) (h : g.gzipWriter = none) :
    g.finish wd = g := by
  unfold finish
  rw [h]

end gzipRespWriter

end GoHttpHandler

namespace GoHttpHandler

open gzipRespWriter

/-- One call on a decorator on which compression is ruled out and was not chosen:
no fault, still no compression, the chunk (if any) appended to the sink's
record, and `Content-Encoding` untouched unless the handler itself wrote the map. -/
theorem step_blocked (wd : World) (g : gzipRespWriter) (op : Op) (hb : g.Blocked)
    (hop : ∀ c, op = .WriteHeader c → acceptGzip g.request = false ∨ c ≠ 200)
    (hg : g.gzipContent = false) (hs : g.headerSet = false) (hz : g.gzipWriter = none) :
    (step wd g op).2 = false ∧ (step wd g op).1.Blocked ∧
    (step wd g op).1.request = g.request ∧
    (step wd g op).1.gzipContent = false ∧ (step wd g op).1.headerSet = false ∧
    (step wd g op).1.gzipWriter = none ∧
    (step wd g op).1.writer.writes = g.writer.writes ++ chunksOf [op] ∧
    ((∀ h, op ≠ .headers h) →
      (step wd g op).1.writer.header.entries.lookup "Content-Encoding" =
        g.writer.header.entries.lookup "Content-Encoding") ∧
    ((∀ c, op ≠ .WriteHeader c) → (step wd g op).1.statusCode = g.statusCode) := by
  cases op with
  | headers h =>
    refine ⟨rfl, hb, rfl, hg, hs, hz, ?_, ?_, fun _ => rfl⟩
    · simp [step, chunksOf]
    · intro hne
      exact absurd rfl (hne h)
  | WriteHeader c =>
    have hc := hop c rfl
    obtain ⟨cl, e⟩ := WriteHeader_blocked g c hc
    have hstep : step wd g (.WriteHeader c) = (g.WriteHeader c, false) := rfl
    rw [hstep, e]
    exact ⟨rfl, hc, rfl, hg, hs, hz, by simp [chunksOf], fun _ => rfl,
      fun hne => absurd rfl (hne c)⟩
  | Write data =>
    obtain ⟨cl, hd, hce, _, e⟩ := Write_blocked wd g data hb hg
    have hstep : step wd g (.Write data) = ((g.Write wd data).1, (g.Write wd data).2.isNone) :=
      rfl
    rw [hstep, e]
    exact ⟨rfl, hb, rfl, hg, hs, hz, rfl, fun _ => hce, fun _ => rfl⟩
  | finish =>
    have hstep : step wd g .finish = (g.finish wd, false) := rfl
    rw [hstep, finish_of_no_encoder wd g hz]
    exact ⟨rfl, hb, rfl, hg, hs, hz, by simp [chunksOf], fun _ => rfl, fun _ => rfl⟩

theorem exec_cons (wd : World) (g : gzipRespWriter) (op : Op) (ops : List Op) :
    exec wd g (op :: ops) = exec wd (step wd g op).1 ops := rfl

theorem exec_append (wd : World) (g : gzipRespWriter) (ops1 ops2 : List Op) :
    exec wd g (ops1 ++ ops2) = exec wd (exec wd g ops1) ops2 := by
  simp [exec, List.foldl_append]

theorem chunksOf_cons (op : Op) (ops : List Op) :
    chunksOf (op :: ops) = chunksOf [op] ++ chunksOf ops := by
  cases op <;> simp [chunksOf]

/-- A whole sequence of calls on a decorator on which compression is ruled out
and stays so (every status call keeps it ruled out). -/
theorem exec_blocked (wd : World) (ops : List Op) :
    ∀ g : gzipRespWriter, g.Blocked →
      (∀ c, Op.WriteHeader c ∈ ops → acceptGzip g.request = false ∨ c ≠ 200) →
      g.gzipContent = false → g.headerSet = false → g.gzipWriter = none →
      faultFree wd g ops = true ∧ (exec wd g ops).Blocked ∧
      (exec wd g ops).request = g.request ∧
      (exec wd g ops).gzipContent = false ∧ (exec wd g ops).headerSet = false ∧
      (exec wd g ops).gzipWriter = none ∧
      (exec wd g ops).writer.writes = g.writer.writes ++ chunksOf ops ∧
      ((∀ c, Op.WriteHeader c ∉ ops) → (exec wd g ops).statusCode = g.statusCode) := by
  induction ops with
  | nil =>
    intro g hb _ hg hs hz
    simp [faultFree, exec, chunksOf, hb, hg, hs, hz]
  | cons op ops ih =>
    intro g hb hop hg hs hz
    obtain ⟨h1, h2, h3, h4, h5, h6, h7, _, h9⟩ :=
      step_blocked wd g op hb (fun c hc => hop c (by simp [hc])) hg hs hz
    obtain ⟨i1, i2, i3, i4, i5, i6, i7, i8⟩ := ih (step wd g op).1 h2
      (fun c hc => by rw [h3]; exact hop c (List.mem_cons_of_mem _ hc)) h4 h5 h6
    rw [exec_cons, chunksOf_cons]
    refine ⟨?_, i2, i3.trans h3, i4, i5, i6, ?_, ?_⟩
    · simp [faultFree, h1, i1]
    · rw [i7, h7, List.append_assoc]
    · intro hno
      rw [i8 (fun c hc => hno c (List.mem_cons_of_mem _ hc)),
        h9 (fun c hc => hno c (by simp [hc]))]

theorem acceptGzip_eq_false (r : Request)
    (hr : ∀ t ∈ Split (r.Header.Get "Accept-Encoding") ',', TrimSpace t ≠ "gzip") :
    acceptGzip r = false := by
  unfold acceptGzip
  rw [List.any_eq_false]
  intro t ht
  have hne := hr t ht
  intro hbeq
  exact hne (eq_of_beq hbeq).symm

/-- C3: a request whose `Accept-Encoding` has no piece that trims to `gzip`.
Whatever calls `ops` the handler has made on the fresh decorator: none faulted,
compression was not chosen, the decorator made no header mutation, the sink
received exactly the chunks written, in order; and a further call keeps it so:
a `Write` hands its chunk unchanged to the sink and returns the sink's result,
and no decorator call changes the `Content-Encoding` entry. -/
theorem no_gzip_token_passes_through (wd : World) (w : ResponseWriter) (r : Request)
    (hr : ∀ t ∈ Split (r.Header.Get "Accept-Encoding") ',', TrimSpace t ≠ "gzip")
    (ops : List Op) (data : Bytes) (op : Op) (hop : ∀ h, op ≠ .headers h) :
    faultFree wd (newGzipRespWriter w r) ops = true ∧
    (exec wd (newGzipRespWriter w r) ops).gzipContent = false ∧
    (exec wd (newGzipRespWriter w r) ops).headerSet = false ∧
    (exec wd (newGzipRespWriter w r) ops).writer.writes = w.writes ++ chunksOf ops ∧
    ((exec wd (newGzipRespWriter w r) ops).Write wd data).2 =
      some (wd.sinkWrite ((exec wd (newGzipRespWriter w r) ops).atDecision wd data).writer data) ∧
    ((exec wd (newGzipRespWriter w r) ops).Write wd data).1.writer.writes =
      (exec wd (newGzipRespWriter w r) ops).writer.writes ++ [data] ∧
    ((exec wd (newGzipRespWriter w r) ops).Write wd data).1.gzipContent = false ∧
    (step wd (exec wd (newGzipRespWriter w r) ops) op).1.writer.header.entries.lookup
        "Content-Encoding" =
      (exec wd (newGzipRespWriter w r) ops).writer.header.entries.lookup "Content-Encoding" := by
  have ha := acceptGzip_eq_false r hr
  obtain ⟨i1, i2, i3, i4, i5, i6, i7, _⟩ :=
    exec_blocked wd ops (newGzipRespWriter w r) (Or.inl ha) (fun _ _ => Or.inl ha) rfl rfl rfl
  have ha2 : acceptGzip (exec wd (newGzipRespWriter w r) ops).request = false := by
    rw [i3]; exact ha
  obtain ⟨cl, hd, _, hw, e⟩ :=
    Write_blocked wd (exec wd (newGzipRespWriter w r) ops) data i2 i4
  obtain ⟨_, _, _, _, _, _, _, s8, _⟩ :=
    step_blocked wd (exec wd (newGzipRespWriter w r) ops) op i2 (fun _ _ => Or.inl ha2)
      i4 i5 i6
  refine ⟨i1, i4, i5, i7, ?_, ?_, ?_, s8 hop⟩
  · rw [e, hw]
  · rw [e]
  · rw [e]; exact i4

/-- C3 witness: `Accept-Encoding: deflate, br`; a status call and two chunks, then
a third chunk and, as the further call, `finish`. -/
theorem no_gzip_token_passes_through_witness :
    faultFree plainWorld (newGzipRespWriter (freshSink jsonHeaders2000)
      (requestAccepting "deflate, br")) [.WriteHeader 200, .Write (body 3), .Write (body 2)]
      = true ∧
    (exec plainWorld (newGzipRespWriter (freshSink jsonHeaders2000)
      (requestAccepting "deflate, br")) [.WriteHeader 200, .Write (body 3), .Write (body 2)]
      ).writer.writes = [] ++ [body 3, body 2] :=
  have h := no_gzip_token_passes_through plainWorld (freshSink jsonHeaders2000)
    (requestAccepting "deflate, br") (by decide)
    [.WriteHeader 200, .Write (body 3), .Write (body 2)] (body 1) .finish
    (by intro h; exact Op.noConfusion)
  ⟨h.1, h.2.2.2.1⟩

end GoHttpHandler

namespace GoHttpHandler

open gzipRespWriter

namespace gzipRespWriter

theorem canGzip_small (g : gzipRespWriter) (n : Int) (hn : n ≤ 1024)
    (hc : g.contentLength ≤ 1024) : g.canGzip n = false := by
  cases h : g.canGzip n with
  | false => rfl
  | true =>
    have := ((canGzip_iff g n).1 h).2.2.2
    omega

theorem checkContentLength_small (g : gzipRespWriter) (cl : String) (N : Int)
    (hN : parseInt32 cl = some N) (hle : N ≤ 1024) (hc : g.contentLength ≤ 1024)
    (hpre : g.written = false → g.writer.header.Get "Content-Length" = cl ∧ g.origBytes ≤ 1024) :
    ∃ c, c ≤ 1024 ∧ g.checkContentLength = { g with contentLength := c } := by
  unfold checkContentLength
  split
  · exact ⟨_, hc, rfl⟩
  · rename_i hcond
    have hw : g.written = false := by
      cases hgw : g.written with
      | false => rfl
      | true => simp [hgw] at hcond
    obtain ⟨hget, horig⟩ := hpre hw
    simp only
    split
    · split
      · rename_i t heq
        have ht : t = N := by
          have : g.Header.Get "Content-Length" = cl := hget
          rw [this, hN] at heq
          exact (Option.some.inj heq).symm
        subst ht
        rw [if_neg]
        · exact ⟨_, hle, rfl⟩
        · rw [canGzip_small _ _ (by exact horig) (by exact hle)]
          simp
      · exact ⟨_, hc, rfl⟩
    · exact ⟨_, hc, rfl⟩

/-- The decorator of the small-announced-length argument: no compression so far,
a hint of at most 1024, and, before the first `Write`, the announced length
still in the map and nothing counted. -/
theorem Write_small (wd : World) (g : gzipRespWriter) (data : Bytes) (cl : String) (N : Int)
    (hN : parseInt32 cl = some N) (hle : N ≤ 1024) (hc : g.contentLength ≤ 1024)
    (hpre : g.written = false → g.writer.header.Get "Content-Length" = cl ∧ g.origBytes ≤ 1024)
    (hg : g.gzipContent = false) (hd : (data.length : Int) ≤ 1024) :
    ∃ c hdr, c ≤ 1024 ∧
      g.Write wd data =
        ({ g with
            contentLength := c, written := true,
            origBytes := g.origBytes + (data.length : Int),
            writer := { g.writer with header := hdr, writes := g.writer.writes ++ [data] } },
          some (wd.sinkWrite { g.writer with header := hdr } data)) := by
  have key : ∃ c hdr, c ≤ 1024 ∧ g.atDecision wd data =
      { g with contentLength := c, writer := { g.writer with header := hdr } } := by
    unfold atDecision
    simp only
    split
    · obtain ⟨c, hc1, e⟩ := checkContentLength_small
        { g with writer := { g.writer with
            header := g.writer.header.Set "Content-Type" (wd.DetectContentType data) } }
        cl N hN hle hc (fun hw => by
          refine ⟨?_, (hpre hw).2⟩
          show (g.writer.header.Set "Content-Type" _).Get "Content-Length" = cl
          rw [Header.Get_Set_other _ _ _ _ (by decide)]
          exact (hpre hw).1)
      exact ⟨c, _, hc1, e⟩
    · obtain ⟨c, hc1, e⟩ := checkContentLength_small g cl N hN hle hc hpre
      exact ⟨c, g.writer.header, hc1, e⟩
  obtain ⟨c, hdr, hc1, e⟩ := key
  have hdec : decided (g.atDecision wd data) data =
      { g.atDecision wd data with
          written := true, origBytes := (g.atDecision wd data).origBytes + (data.length : Int) } := by
    unfold decided
    by_cases hw : (g.atDecision wd data).written = true
    · simp [hw]
    · have hcg : (g.atDecision wd data).canGzip (data.length : Int) = false :=
        canGzip_small _ _ hd (by rw [e]; exact hc1)
      have hg2 : (g.atDecision wd data).gzipContent = false := by rw [e]; exact hg
      simp [hw, hcg, hg2]
  refine ⟨c, hdr, hc1, ?_⟩
  rw [Write_of_not_gzipContent wd g data (by rw [hdec, e]; exact hg), hdec, e]
  rfl

end gzipRespWriter

theorem step_small (wd : World) (g : gzipRespWriter) (op : Op) (cl : String) (N : Int)
    (hN : parseInt32 cl = some N) (hle : N ≤ 1024) (hc : g.contentLength ≤ 1024)
    (hpre : g.written = false → g.writer.header.Get "Content-Length" = cl ∧ g.origBytes ≤ 1024)
    (hg : g.gzipContent = false) (hs : g.headerSet = false) (hz : g.gzipWriter = none)
    (hop : ∀ h, op = .headers h → g.written = false → h.Get "Content-Length" = cl)
    (hd : ∀ d, op = .Write d → (d.length : Int) ≤ 1024) :
    (step wd g op).2 = false ∧ (step wd g op).1.contentLength ≤ 1024 ∧
    ((step wd g op).1.written = false →
      (step wd g op).1.writer.header.Get "Content-Length" = cl ∧
      (step wd g op).1.origBytes ≤ 1024) ∧
    (step wd g op).1.gzipContent = false ∧ (step wd g op).1.headerSet = false ∧
    (step wd g op).1.gzipWriter = none ∧
    (g.written = true ∨ (∃ d, op = .Write d) → (step wd g op).1.written = true) := by
  cases op with
  | headers h =>
    refine ⟨rfl, hc, fun hw => ⟨hop h rfl hw, (hpre hw).2⟩, hg, hs, hz, ?_⟩
    rintro (hw | ⟨d, hd⟩)
    · exact hw
    · exact absurd hd (by simp)
  | WriteHeader c =>
    obtain ⟨c1, hc1, e⟩ := checkContentLength_small { g with statusCode := c } cl N hN hle hc hpre
    have hstep : step wd g (.WriteHeader c) = (g.WriteHeader c, false) := rfl
    have e2 : g.WriteHeader c =
        { g with statusCode := c, contentLength := c1,
                 writer := { g.writer with statuses := g.writer.statuses ++ [c] } } := by
      unfold WriteHeader
      simp only [e]
      rfl
    rw [hstep, e2]
    refine ⟨rfl, hc1, hpre, hg, hs, hz, ?_⟩
    rintro (hw | ⟨d, hd⟩)
    · exact hw
    · exact absurd hd (by simp)
  | Write data =>
    obtain ⟨c, hdr, hc1, e⟩ := Write_small wd g data cl N hN hle hc hpre hg (hd data rfl)
    have hstep : step wd g (.Write data) = ((g.Write wd data).1, (g.Write wd data).2.isNone) :=
      rfl
    rw [hstep, e]
    exact ⟨rfl, hc1, fun hw => absurd hw (by simp), hg, hs, hz, fun _ => rfl⟩
  | finish =>
    have hstep : step wd g .finish = (g.finish wd, false) := rfl
    rw [hstep, finish_of_no_encoder wd g hz]
    refine ⟨rfl, hc, hpre, hg, hs, hz, ?_⟩
    rintro (hw | ⟨d, hd⟩)
    · exact hw
    · exact absurd hd (by simp)

theorem exec_small (wd : World) (cl : String) (N : Int) (hN : parseInt32 cl = some N)
    (hle : N ≤ 1024) (ops : List Op) :
    ∀ g : gzipRespWriter, g.contentLength ≤ 1024 →
      (g.written = false → g.writer.header.Get "Content-Length" = cl ∧ g.origBytes ≤ 1024) →
      g.gzipContent = false → g.headerSet = false → g.gzipWriter = none →
      (g.written = true ∨ keepsLength cl ops = true) →
      (∀ d ∈ chunksOf ops, (d.length : Int) ≤ 1024) →
      faultFree wd g ops = true ∧ (exec wd g ops).gzipContent = false ∧
      (exec wd g ops).headerSet = false := by
  induction ops with
  | nil =>
    intro g _ _ hg hs _ _ _
    exact ⟨rfl, hg, hs⟩
  | cons op ops ih =>
    intro g hc hpre hg hs hz hk hd
    obtain ⟨h1, h2, h3, h4, h5, h6, h7⟩ := step_small wd g op cl N hN hle hc hpre hg hs hz
      (by
        intro h hop hw
        subst hop
        rcases hk with hk | hk
        · rw [hw] at hk; exact absurd hk (by simp)
        · simp only [keepsLength, Bool.and_eq_true, beq_iff_eq] at hk
          exact hk.1)
      (by
        intro d hop
        subst hop
        exact hd d (by simp [chunksOf]))
    have hk2 : (step wd g op).1.written = true ∨ keepsLength cl ops = true := by
      rcases hk with hk | hk
      · exact Or.inl (h7 (Or.inl hk))
      · cases op with
        | headers h =>
          simp only [keepsLength, Bool.and_eq_true] at hk
          exact Or.inr hk.2
        | WriteHeader c => exact Or.inr hk
        | Write d => exact Or.inl (h7 (Or.inr ⟨d, rfl⟩))
        | finish => exact Or.inr hk
    obtain ⟨i1, i2, i3⟩ := ih (step wd g op).1 h2 h3 h4 h5 h6 hk2
      (fun d hdm => hd d (by rw [chunksOf_cons]; exact List.mem_append_right _ hdm))
    rw [exec_cons]
    refine ⟨?_, i2, i3⟩
    simp [faultFree, h1, i1]

theorem keepsLength_append_left (cl : String) (ops1 ops2 : List Op)
    (h : keepsLength cl (ops1 ++ ops2) = true) : keepsLength cl ops1 = true := by
  induction ops1 with
  | nil => rfl
  | cons op ops ih =>
    cases op with
    | headers hd =>
      simp only [List.cons_append, keepsLength, Bool.and_eq_true] at h ⊢
      exact ⟨h.1, ih h.2⟩
    | WriteHeader c => exact ih h
    | Write d => rfl
    | finish => exact ih h

theorem chunksOf_append (ops1 ops2 : List Op) :
    chunksOf (ops1 ++ ops2) = chunksOf ops1 ++ chunksOf ops2 := by
  induction ops1 with
  | nil => rfl
  | cons op ops ih =>
    rw [List.cons_append, chunksOf_cons, chunksOf_cons op ops, ih, List.append_assoc]

theorem length_le_flatten_length (cs : List Bytes) (d : Bytes) (hd : d ∈ cs) :
    d.length ≤ cs.flatten.length := by
  induction cs with
  | nil => cases hd
  | cons c cs ih =>
    simp only [List.flatten_cons, List.length_append]
    rcases List.mem_cons.1 hd with h | h
    · subst h; omega
    · have := ih h; omega

/-- C4 (as amended): the map holds `Content-Length: cl`, a decimal number
`N ≤ 1024`, when the decorator is made and at every call up to the first
`Write`, and the chunks of the response total `N` bytes.  Whatever the request,
the other headers and the status calls: no call faults, and at every point of
the response (after every prefix `ops1` of the calls) compression is not chosen
and the decorator has made no header mutation. -/
theorem small_announced_body_never_compressed (wd : World) (w : ResponseWriter) (r : Request)
    (cl : String) (N : Int) (hcl : w.header.Get "Content-Length" = cl)
    (hN : parseInt32 cl = some N) (hle : N ≤ 1024) (ops1 ops2 : List Op)
    (hk : keepsLength cl (ops1 ++ ops2) = true)
    (htot : ((chunksOf (ops1 ++ ops2)).flatten.length : Int) = N) :
    faultFree wd (newGzipRespWriter w r) (ops1 ++ ops2) = true ∧
    (exec wd (newGzipRespWriter w r) ops1).gzipContent = false ∧
    (exec wd (newGzipRespWriter w r) ops1).headerSet = false ∧
    (exec wd (newGzipRespWriter w r) (ops1 ++ ops2)).gzipContent = false ∧
    (exec wd (newGzipRespWriter w r) (ops1 ++ ops2)).headerSet = false := by
  have hd : ∀ d ∈ chunksOf (ops1 ++ ops2), (d.length : Int) ≤ 1024 := by
    intro d hdm
    have := length_le_flatten_length _ d hdm
    omega
  have h0 : (newGzipRespWriter w r).written = false →
      (newGzipRespWriter w r).writer.header.Get "Content-Length" = cl ∧
      (newGzipRespWriter w r).origBytes ≤ 1024 :=
    fun _ => ⟨hcl, by show (0 : Int) ≤ 1024; decide⟩
  obtain ⟨f, a1, a2⟩ := exec_small wd cl N hN hle (ops1 ++ ops2) (newGzipRespWriter w r)
    (by show (0 : Int) ≤ 1024; decide) h0 rfl rfl rfl (Or.inr hk) hd
  obtain ⟨_, b1, b2⟩ := exec_small wd cl N hN hle ops1 (newGzipRespWriter w r)
    (by show (0 : Int) ≤ 1024; decide) h0 rfl rfl rfl (Or.inr (keepsLength_append_left cl ops1 ops2 hk))
    (fun d hdm => hd d (by rw [chunksOf_append]; exact List.mem_append_left _ hdm))
  exact ⟨f, b1, b2, a1, a2⟩

end GoHttpHandler

namespace GoHttpHandler

open gzipRespWriter

/-- C4 witness: `Content-Length: 8` announced, a status call, then 3 and 5 bytes,
from a client that accepts gzip. -/
theorem small_announced_body_never_compressed_witness :
    faultFree plainWorld (newGzipRespWriter (freshSink textHeaders8) (requestAccepting "gzip"))
      ([.WriteHeader 200, .Write (body 3)] ++ [.Write (body 5)]) = true ∧
    (exec plainWorld (newGzipRespWriter (freshSink textHeaders8) (requestAccepting "gzip"))
      ([.WriteHeader 200, .Write (body 3)] ++ [.Write (body 5)])).gzipContent = false :=
  have h := small_announced_body_never_compressed plainWorld (freshSink textHeaders8)
    (requestAccepting "gzip") "8" 8 (by decide) (by decide) (by decide)
    [.WriteHeader 200, .Write (body 3)] [.Write (body 5)] (by decide) (by decide)
  ⟨h.1, h.2.2.2.1⟩

namespace gzipRespWriter

theorem checkContentLength_of_written (g : gzipRespWriter) (h : g.written = true) :
    g.checkContentLength = g := by
  unfold checkContentLength
  simp [h]

theorem decided_shape (g : gzipRespWriter) (data : Bytes) :
    ∃ gc hs h, decided g data =
      { g with gzipContent := gc, headerSet := hs, writer := { g.writer with header := h },
               written := true, origBytes := g.origBytes + (data.length : Int) } := by
  unfold decided
  by_cases hw : g.written = true
  · simp only [hw, Bool.not_true, Bool.false_eq_true, if_false]
    exact ⟨_, _, _, rfl⟩
  · simp only [hw, Bool.not_false, if_true]
    by_cases hc : g.canGzip (data.length : Int) = true
    · simp only [hc, if_true]
      unfold setHeader
      split
      · exact ⟨_, _, _, rfl⟩
      · exact ⟨_, _, _, rfl⟩
    · simp only [hc, Bool.false_eq_true, if_false]
      exact ⟨_, _, _, rfl⟩

theorem decided_of_written (g : gzipRespWriter) (data : Bytes) (hw : g.written = true) :
    decided g data =
      { g with written := true, origBytes := g.origBytes + (data.length : Int) } := by
  unfold decided
  simp [hw]

theorem atDecision_of_written (wd : World) (g : gzipRespWriter) (data : Bytes)
    (hw : g.written = true) :
    ∃ h, g.atDecision wd data = { g with writer := { g.writer with header := h } } := by
  unfold atDecision
  simp only
  split
  · rw [checkContentLength_of_written _ (by exact hw)]
    exact ⟨_, rfl⟩
  · rw [checkContentLength_of_written _ hw]
    exact ⟨_, rfl⟩

theorem Write_frame (wd : World) (g : gzipRespWriter) (data : Bytes) :
    (g.Write wd data).1.written = true ∧ (g.Write wd data).1.statusCode = g.statusCode ∧
    (g.Write wd data).1.request = g.request ∧
    (g.written = true → (g.Write wd data).1.gzipContent = g.gzipContent ∧
      (g.Write wd data).1.contentLength = g.contentLength) := by
  obtain ⟨d1, d2, d3, _, d5, d6⟩ := deliver_frame wd (decided (g.atDecision wd data) data) data
  unfold Write
  rw [d1, d2, d3, d5, d6]
  refine ⟨?_, ?_, ?_, ?_⟩
  · obtain ⟨gc, hs, h, e⟩ := decided_shape (g.atDecision wd data) data
    rw [e]
  · obtain ⟨gc, hs, h, e⟩ := decided_shape (g.atDecision wd data) data
    obtain ⟨cl, hs2, hd, e2⟩ := atDecision_shape wd g data
    rw [e, e2]
  · obtain ⟨gc, hs, h, e⟩ := decided_shape (g.atDecision wd data) data
    obtain ⟨cl, hs2, hd, e2⟩ := atDecision_shape wd g data
    rw [e, e2]
  · intro hw
    obtain ⟨h, e⟩ := atDecision_of_written wd g data hw
    rw [decided_of_written _ _ (by rw [e]; exact hw), e]
    exact ⟨rfl, rfl⟩

theorem WriteHeader_frame (g : gzipRespWriter) (c : Int) :
    (g.WriteHeader c).written = g.written ∧ (g.WriteHeader c).gzipContent = g.gzipContent ∧
    (g.WriteHeader c).statusCode = c ∧ (g.WriteHeader c).request = g.request ∧
    (g.WriteHeader c).origBytes = g.origBytes ∧ (g.WriteHeader c).sw = g.sw ∧
    (g.WriteHeader c).gzipWriter = g.gzipWriter := by
  obtain ⟨cl, hs, hd, e⟩ := checkContentLength_shape { g with statusCode := c }
  have key : g.WriteHeader c =
      { ({ g with statusCode := c } : gzipRespWriter).checkContentLength with
        writer := (({ g with statusCode := c } : gzipRespWriter).checkContentLength).writer.WriteHeader
          c } := rfl
  rw [key, e]
  exact ⟨rfl, rfl, rfl, rfl, rfl, rfl, rfl⟩

end gzipRespWriter

theorem step_of_written (wd : World) (g : gzipRespWriter) (op : Op) (hw : g.written = true) :
    (step wd g op).1.written = true ∧ (step wd g op).1.gzipContent = g.gzipContent := by
  cases op with
  | headers h => exact ⟨hw, rfl⟩
  | WriteHeader c =>
    exact ⟨(WriteHeader_frame g c).1.trans hw, (WriteHeader_frame g c).2.1⟩
  | Write data =>
    exact ⟨(Write_frame wd g data).1, ((Write_frame wd g data).2.2.2 hw).1⟩
  | finish =>
    exact ⟨(finish_frame wd g).1.trans hw, (finish_frame wd g).2.1⟩

theorem exec_of_written (wd : World) (ops : List Op) :
    ∀ g : gzipRespWriter, g.written = true →
      (exec wd g ops).written = true ∧ (exec wd g ops).gzipContent = g.gzipContent := by
  induction ops with
  | nil => intro g hw; exact ⟨hw, rfl⟩
  | cons op ops ih =>
    intro g hw
    obtain ⟨h1, h2⟩ := step_of_written wd g op hw
    obtain ⟨i1, i2⟩ := ih (step wd g op).1 h1
    rw [exec_cons]
    exact ⟨i1, i2.trans h2⟩

/-- C5 (decision freeze): whatever decorator `grw` a `Write` was made on, and
whatever calls follow it (header mutations by the handler, `WriteHeader` with any
code, further `Write`s, `finish`), `gzipContent` keeps the value it had when that
`Write` returned. -/
theorem decision_frozen_after_first_write (wd : World) (grw : gzipRespWriter) (data : Bytes)
    (ops : List Op) :
    (exec wd (grw.Write wd data).1 ops).gzipContent = (grw.Write wd data).1.gzipContent :=
  (exec_of_written wd ops _ (gzipRespWriter.Write_frame wd grw data).1).2

/-- C6 (as stated) fails: compression was chosen by the first `Write`, the
handler then calls `WriteHeader(404)`, and the next chunk still goes through the
gzip encoder, which has then taken both chunks. -/
theorem late_status_keeps_compression :
    compressing.gzipContent = true ∧
    (compressing.WriteHeader 404).statusCode = 404 ∧
    ((compressing.WriteHeader 404).Write plainWorld (body 16)).1.gzipContent = true ∧
    ((compressing.WriteHeader 404).Write plainWorld (body 16)).1.gzipWriter =
      some ⟨body 16 ++ body 16, none, false⟩ := by
  decide

/-- C6 (as amended): once the first `Write` has chosen compression, a
`WriteHeader` with any code `c`, 200 or not, records the status and leaves the
decision alone: `gzipContent` stays true, so the next `Write` is still in
compression mode; and when the byte-counting sink `sw` and the encoder `z` are
still in place, that `Write` returns what the encoder returns for the chunk.
(What a `Write` does once `finish` has cleared the encoder is not stated here.) -/
theorem status_after_first_write_keeps_decision (wd : World) (grw : gzipRespWriter) (c : Int)
    (data : Bytes) (hw : grw.written = true) (hg : grw.gzipContent = true) :
    (grw.WriteHeader c).statusCode = c ∧ (grw.WriteHeader c).gzipContent = true ∧
    ((grw.WriteHeader c).Write wd data).1.gzipContent = true ∧
    (∀ z sw, grw.gzipWriter = some z → grw.sw = some sw →
      ((grw.WriteHeader c).Write wd data).2 =
        some (z.Write wd sw ((grw.WriteHeader c).atDecision wd data).writer data).2.2.2) := by
  obtain ⟨f1, f2, f3, _, _, f6, f7⟩ := WriteHeader_frame grw c
  have hw1 : (grw.WriteHeader c).written = true := f1.trans hw
  have hg1 : (grw.WriteHeader c).gzipContent = true := f2.trans hg
  refine ⟨f3, hg1, ?_, ?_⟩
  · rw [((Write_frame wd _ data).2.2.2 hw1).1]; exact hg1
  · intro z sw hz hsw
    obtain ⟨cl, hs, hd, e⟩ := atDecision_shape wd (grw.WriteHeader c) data
    have hdec : decided ((grw.WriteHeader c).atDecision wd data) data =
        { (grw.WriteHeader c).atDecision wd data with
          written := true
          origBytes := ((grw.WriteHeader c).atDecision wd data).origBytes + (data.length : Int) } := by
      unfold decided
      have : ((grw.WriteHeader c).atDecision wd data).written = true := by rw [e]; exact hw1
      simp [this]
    unfold Write deliver
    rw [hdec]
    have hgc : ((grw.WriteHeader c).atDecision wd data).gzipContent = true := by rw [e]; exact hg1
    have hsw2 : ((grw.WriteHeader c).atDecision wd data).sw = some sw := by
      rw [e]; exact f6.trans hsw
    have hz2 : ((grw.WriteHeader c).atDecision wd data).gzipWriter = some z := by
      rw [e]; exact f7.trans hz
    simp [hgc, withPipeline, hsw2, hz2, throughEncoder]

/-- C6 witness: the compressing decorator, `WriteHeader(404)`, another chunk. -/
theorem status_after_first_write_keeps_decision_witness :
    (compressing.WriteHeader 404).statusCode = 404 ∧
    ((compressing.WriteHeader 404).Write plainWorld (body 16)).1.gzipContent = true :=
  have h := status_after_first_write_keeps_decision plainWorld compressing 404 (body 16)
    (by decide) (by decide)
  ⟨h.1, h.2.2.1⟩

end GoHttpHandler

namespace GoHttpHandler

open gzipRespWriter

/-! ## The byte-counting sink exists whenever compression was chosen -/

namespace gzipRespWriter

theorem finish_sw (wd : World) (g : gzipRespWriter) :
    (g.finish wd).sw.isSome = g.sw.isSome := by
  unfold finish
  split
  · rfl
  · simp only [Option.isSome_map']
    rw [(setHeader_frame g).2.2.2.2.2.2.1]

theorem throughEncoder_sw (wd : World) (g : gzipRespWriter) (z : GzipWriter) (data : Bytes) :
    (throughEncoder wd g z data).1.sw.isSome = g.sw.isSome := by
  unfold throughEncoder
  simp only
  split
  · rw [finish_sw]
    simp
  · simp

theorem deliver_sw (wd : World) (g : gzipRespWriter) (data : Bytes)
    (h : (deliver wd g data).1.gzipContent = true) : (deliver wd g data).1.sw.isSome = true := by
  rw [(deliver_frame wd g data).2.1] at h
  have hp : g.withPipeline.sw.isSome = true := by
    unfold withPipeline
    split
    · rfl
    · rename_i hn
      cases hsw : g.sw with
      | none => simp [hsw] at hn
      | some s => rfl
  unfold deliver
  rw [if_pos h]
  split
  · exact hp
  · rw [throughEncoder_sw]
    exact hp

end gzipRespWriter

theorem step_sw (wd : World) (g : gzipRespWriter) (op : Op)
    (h : g.gzipContent = true → g.sw.isSome = true) :
    (step wd g op).1.gzipContent = true → (step wd g op).1.sw.isSome = true := by
  cases op with
  | headers hd => exact h
  | WriteHeader c =>
    obtain ⟨_, f2, _, _, _, f6, _⟩ := WriteHeader_frame g c
    show (g.WriteHeader c).gzipContent = true → (g.WriteHeader c).sw.isSome = true
    rw [f2, f6]
    exact h
  | Write data => exact deliver_sw wd _ data
  | finish =>
    show (g.finish wd).gzipContent = true → (g.finish wd).sw.isSome = true
    rw [(finish_frame wd g).2.1, finish_sw]
    exact h

theorem exec_sw (wd : World) (ops : List Op) :
    ∀ g : gzipRespWriter, (g.gzipContent = true → g.sw.isSome = true) →
      (exec wd g ops).gzipContent = true → (exec wd g ops).sw.isSome = true := by
  induction ops with
  | nil => intro g h; exact h
  | cons op ops ih =>
    intro g h
    rw [exec_cons]
    exact ih _ (step_sw wd g op h)

theorem step_statusCode (wd : World) (g : gzipRespWriter) (op : Op)
    (hop : ∀ c, op ≠ .WriteHeader c) : (step wd g op).1.statusCode = g.statusCode := by
  cases op with
  | headers hd => rfl
  | WriteHeader c => exact absurd rfl (hop c)
  | Write data => exact (Write_frame wd g data).2.1
  | finish => exact (finish_frame wd g).2.2.1

theorem exec_statusCode (wd : World) (ops : List Op) :
    ∀ g : gzipRespWriter, (∀ c, Op.WriteHeader c ∉ ops) →
      (exec wd g ops).statusCode = g.statusCode := by
  induction ops with
  | nil => intro g _; rfl
  | cons op ops ih =>
    intro g hno
    rw [exec_cons, ih _ (fun c hc => hno c (List.mem_cons_of_mem _ hc)),
      step_statusCode wd g op (fun c hc => hno c (by simp [hc]))]

/-- `ServeHTTP` on a handler none of whose calls faults, for a remote address
with a colon: it returns, having written one line to the log sink. -/
theorem ServeHTTP_of_faultFree (wd : World) (handler : HttpLogGzipHandler) (millis : Int)
    (w : ResponseWriter) (r : Request) (ip : List Char)
    (hf : faultFree wd (newGzipRespWriter w r) handler.impl = true)
    (hip : beforeLastChars ':' r.RemoteAddr.data = some ip) :
    ∃ tx, ((exec wd (newGzipRespWriter w r) handler.impl).finish wd).getBytesWritten = some tx ∧
      handler.ServeHTTP wd millis w r =
        some ({ handler with
                logWriter := handler.logWriter ++
                  [logLine ⟨ip⟩ r.Method r.RequestURI
                    (exec wd (newGzipRespWriter w r) handler.impl).statusCode tx
                    (exec wd (newGzipRespWriter w r) handler.impl).origBytes millis
                    (if r.Referer.length == 0 then "-" else r.Referer)
                    (((exec wd (newGzipRespWriter w r) handler.impl).finish wd).writer.header.Get
                      "Content-Type") r.UserAgent] },
              ((exec wd (newGzipRespWriter w r) handler.impl).finish wd).writer) := by
  have hsw := exec_sw wd handler.impl (newGzipRespWriter w r)
    (fun h => absurd h (by simp [newGzipRespWriter]))
  obtain ⟨_, f2, f3, f4, _, _⟩ := finish_frame wd (exec wd (newGzipRespWriter w r) handler.impl)
  have hb : ∃ tx,
      ((exec wd (newGzipRespWriter w r) handler.impl).finish wd).getBytesWritten = some tx := by
    unfold getBytesWritten
    split
    · rename_i hg
      rw [f2] at hg
      have := hsw hg
      rw [← finish_sw wd] at this
      cases hs : ((exec wd (newGzipRespWriter w r) handler.impl).finish wd).sw with
      | none => rw [hs] at this; simp at this
      | some s => exact ⟨_, rfl⟩
    · exact ⟨_, rfl⟩
  obtain ⟨tx, htx⟩ := hb
  refine ⟨tx, htx, ?_⟩
  unfold HttpLogGzipHandler.ServeHTTP run
  simp only [hf, if_true, hip, htx, f3, f4]

/-- A status call before the body, on runs that return.  (a) The handler's only
`WriteHeader` call is `WriteHeader(s)`, `s ≠ 200`, made first on a fresh
decorator (whose header map and request are arbitrary); whatever `Write` calls
and header mutations follow, no call faults, compression is not chosen, the
decorator makes no header mutation, and the log line written by `ServeHTTP`
for a remote address with a colon has status `s`.  (b) After calls `ops2`
without any `WriteHeader` the status the decorator holds is 200, and it is the
status of the log line `ServeHTTP` writes when no call of the handler faults. -/
theorem status_before_body_disables_compression (wd : World) (w : ResponseWriter) (r : Request)
    (s : Int) (post ops2 : List Op) (log : List String) (millis : Int) (ip : List Char)
    (hs : s ≠ 200) (hpost : ∀ c, Op.WriteHeader c ∉ post) (hops2 : ∀ c, Op.WriteHeader c ∉ ops2)
    (hip : beforeLastChars ':' r.RemoteAddr.data = some ip) :
    (faultFree wd (newGzipRespWriter w r) (.WriteHeader s :: post) = true ∧
     (exec wd (newGzipRespWriter w r) (.WriteHeader s :: post)).gzipContent = false ∧
     (exec wd (newGzipRespWriter w r) (.WriteHeader s :: post)).headerSet = false ∧
     ∃ (raw : Int) (ct : String) (sink : ResponseWriter),
       HttpLogGzipHandler.ServeHTTP wd ⟨.WriteHeader s :: post, log⟩ millis w r =
         some (⟨.WriteHeader s :: post,
                log ++ [(⟨ip⟩ : String) ++ " " ++ r.Method ++ " " ++ r.RequestURI ++ " " ++
                  toString s ++ " " ++ toString raw ++ "/" ++ toString raw ++ " " ++
                  toString millis ++ "ms " ++
                  (if r.Referer.length == 0 then "-" else r.Referer) ++ " '" ++ ct ++ "' " ++
                  r.UserAgent]⟩, sink)) ∧
    ((exec wd (newGzipRespWriter w r) ops2).statusCode = 200 ∧
     (faultFree wd (newGzipRespWriter w r) ops2 = true →
      ∃ (tx raw : Int) (ct : String) (sink : ResponseWriter),
       HttpLogGzipHandler.ServeHTTP wd ⟨ops2, log⟩ millis w r =
         some (⟨ops2,
                log ++ [(⟨ip⟩ : String) ++ " " ++ r.Method ++ " " ++ r.RequestURI ++ " " ++
                  toString (200 : Int) ++ " " ++ toString tx ++ "/" ++ toString raw ++ " " ++
                  toString millis ++ "ms " ++
                  (if r.Referer.length == 0 then "-" else r.Referer) ++ " '" ++ ct ++ "' " ++
                  r.UserAgent]⟩, sink))) := by
  constructor
  · obtain ⟨cl, e⟩ := WriteHeader_blocked (newGzipRespWriter w r) s (Or.inr hs)
    have e1 : (step wd (newGzipRespWriter w r) (.WriteHeader s)).1 =
        (newGzipRespWriter w r).WriteHeader s := rfl
    have hb1 : ((newGzipRespWriter w r).WriteHeader s).Blocked := by
      rw [e]; exact Or.inr hs
    obtain ⟨i1, _, _, i4, i5, i6, _, i8⟩ := exec_blocked wd post
      ((newGzipRespWriter w r).WriteHeader s) hb1 (fun c hc => absurd hc (hpost c))
      (by rw [e]; rfl) (by rw [e]; rfl) (by rw [e]; rfl)
    have hst : (exec wd (newGzipRespWriter w r) (.WriteHeader s :: post)).statusCode = s := by
      rw [exec_cons, e1, i8 hpost, e]
    have hf : faultFree wd (newGzipRespWriter w r) (.WriteHeader s :: post) = true := by
      simp only [faultFree, e1, i1, Bool.and_true]
      rfl
    refine ⟨hf, by rw [exec_cons, e1]; exact i4, by rw [exec_cons, e1]; exact i5, ?_⟩
    obtain ⟨tx, htx, hserve⟩ := ServeHTTP_of_faultFree wd ⟨.WriteHeader s :: post, log⟩ millis w r
      ip hf hip
    have hfin : (exec wd (newGzipRespWriter w r) (.WriteHeader s :: post)).finish wd =
        exec wd (newGzipRespWriter w r) (.WriteHeader s :: post) :=
      finish_of_no_encoder wd _ (by rw [exec_cons, e1]; exact i6)
    have htx2 : tx = (exec wd (newGzipRespWriter w r) (.WriteHeader s :: post)).origBytes := by
      rw [hfin] at htx
      unfold getBytesWritten at htx
      rw [exec_cons, e1, i4] at htx
      simp only [Bool.false_eq_true, if_false, Option.some.injEq] at htx
      rw [exec_cons, e1]
      exact htx.symm
    refine ⟨(exec wd (newGzipRespWriter w r) (.WriteHeader s :: post)).origBytes,
      ((exec wd (newGzipRespWriter w r) (.WriteHeader s :: post)).finish wd).writer.header.Get
        "Content-Type",
      ((exec wd (newGzipRespWriter w r) (.WriteHeader s :: post)).finish wd).writer, ?_⟩
    rw [hserve, hst, htx2]
    rfl
  · have hst := exec_statusCode wd ops2 (newGzipRespWriter w r) hops2
    refine ⟨hst, fun hf => ?_⟩
    obtain ⟨tx, _, hserve⟩ := ServeHTTP_of_faultFree wd ⟨ops2, log⟩ millis w r ip hf hip
    refine ⟨tx, (exec wd (newGzipRespWriter w r) ops2).origBytes,
      ((exec wd (newGzipRespWriter w r) ops2).finish wd).writer.header.Get "Content-Type",
      ((exec wd (newGzipRespWriter w r) ops2).finish wd).writer, ?_⟩
    rw [hserve, hst]
    rfl

/-- An instance: `WriteHeader(404)` first, then a JSON chunk, from a client that
accepts gzip; and a handler that writes a chunk without any status call. -/
theorem status_before_body_disables_compression_witness :
    (exec plainWorld (newGzipRespWriter (freshSink jsonHeaders2000) (requestAccepting "gzip"))
      (.WriteHeader 404 :: [.Write (body 16)])).gzipContent = false ∧
    (exec plainWorld (newGzipRespWriter (freshSink jsonHeaders2000) (requestAccepting "gzip"))
      [.Write (body 16)]).statusCode = 200 :=
  have h := status_before_body_disables_compression plainWorld (freshSink jsonHeaders2000)
    (requestAccepting "gzip") 404 [.Write (body 16)] [.Write (body 16)] [] 7
    "10.0.0.1".data (by decide) (fun c h => by simp at h) (fun c h => by simp at h)
    (by decide)
  ⟨h.1.2.1, h.2.1⟩

/-- C10: `finish` twice is `finish` once, as decorator states (which hold the
header map and the record of what the sink received); after `finish` no encoder
is active; with an encoder `z` active the sink afterwards is the sink after the
one `Close` of `z`; and with no encoder active `finish` changes nothing. -/
theorem finish_idempotent (wd : World) (s : gzipRespWriter) :
    (s.finish wd).finish wd = s.finish wd ∧ (s.finish wd).gzipWriter = none ∧
    (∀ z, s.gzipWriter = some z →
      ((s.finish wd).finish wd).writer =
        (z.Close wd (s.setHeader.sw.getD ⟨0⟩) s.setHeader.writer).2.2.1) ∧
    (s.gzipWriter = none → s.finish wd = s) := by
  have hn : (s.finish wd).gzipWriter = none := by
    unfold finish
    split
    · assumption
    · rfl
  have hi : (s.finish wd).finish wd = s.finish wd := finish_of_no_encoder wd _ hn
  refine ⟨hi, hn, ?_, finish_of_no_encoder wd s⟩
  intro z hz
  rw [hi]
  unfold finish
  rw [hz]

end GoHttpHandler

namespace GoHttpHandler

open gzipRespWriter

/-! ## `strings.Split` and `strings.TrimSpace` -/

theorem splitChars_ne_nil (sep : Char) (s : List Char) : splitChars sep s ≠ [] := by
  cases s with
  | nil => simp [splitChars]
  | cons c cs =>
    unfold splitChars
    split
    · simp
    · split <;> simp

theorem splitChars_cons_sep (sep : Char) (cs : List Char) :
    splitChars sep (sep :: cs) = [] :: splitChars sep cs := by
  rw [splitChars, if_pos rfl]

theorem splitChars_cons_ne (sep c : Char) (cs t : List Char) (ts : List (List Char))
    (hc : c ≠ sep) (hs : splitChars sep cs = t :: ts) :
    splitChars sep (c :: cs) = (c :: t) :: ts := by
  rw [splitChars, if_neg hc, hs]

theorem splitChars_append_sep (sep : Char) (a b : List Char) :
    splitChars sep (a ++ sep :: b) = splitChars sep a ++ splitChars sep b := by
  induction a with
  | nil => rw [List.nil_append, splitChars_cons_sep]; rfl
  | cons c a ih =>
    by_cases hc : c = sep
    · subst hc
      rw [List.cons_append, splitChars_cons_sep, splitChars_cons_sep, ih, List.cons_append]
    · cases hs : splitChars sep a with
      | nil => exact absurd hs (splitChars_ne_nil sep a)
      | cons t ts =>
        rw [List.cons_append, splitChars_cons_ne sep c _ t (ts ++ splitChars sep b) hc
          (by rw [ih, hs, List.cons_append]), splitChars_cons_ne sep c a t ts hc hs,
          List.cons_append]

theorem splitChars_of_not_mem (sep : Char) (t : List Char) (h : sep ∉ t) :
    splitChars sep t = [t] := by
  induction t with
  | nil => rfl
  | cons c t ih =>
    have hc : c ≠ sep := fun e => h (by simp [e])
    have ht : sep ∉ t := fun e => h (List.mem_cons_of_mem _ e)
    simp only [splitChars, hc, if_false, ih ht]

theorem intercalate_cons_cons (sep a b : List Char) (l : List (List Char)) :
    List.intercalate sep (a :: b :: l) = a ++ sep ++ List.intercalate sep (b :: l) := by
  simp [List.intercalate, List.intersperse]

/-- A comma-free piece of a comma-joined value is one of the pieces `Split` returns. -/
theorem mem_splitChars_intercalate (tok : List Char) (htok : ',' ∉ tok)
    (pre post : List (List Char)) :
    tok ∈ splitChars ',' (List.intercalate [','] (pre ++ tok :: post)) := by
  induction pre with
  | nil =>
    cases post with
    | nil =>
      simp [List.intercalate, List.intersperse, splitChars_of_not_mem _ _ htok]
    | cons p post =>
      rw [List.nil_append, intercalate_cons_cons, List.append_assoc, List.singleton_append,
        splitChars_append_sep, splitChars_of_not_mem _ _ htok]
      simp
  | cons p pre ih =>
    cases hrest : pre ++ tok :: post with
    | nil => simp at hrest
    | cons q rest =>
      rw [List.cons_append, hrest, intercalate_cons_cons, List.append_assoc,
        List.singleton_append, splitChars_append_sep, ← hrest]
      exact List.mem_append_right _ ih

theorem dropWhile_append_of_all (p : Char → Bool) (ws l : List Char)
    (h : ∀ c ∈ ws, p c = true) : (ws ++ l).dropWhile p = l.dropWhile p := by
  induction ws with
  | nil => rfl
  | cons c ws ih =>
    have hc : p c = true := h c (by simp)
    simp only [List.cons_append, List.dropWhile_cons, hc, if_true]
    exact ih (fun d hd => h d (List.mem_cons_of_mem _ hd))

/-- `TrimSpace` removes the white space around `gzip`. -/
theorem trimSpaceChars_gzip (ws1 ws2 : List Char) (h1 : ∀ c ∈ ws1, isSpace c = true)
    (h2 : ∀ c ∈ ws2, isSpace c = true) :
    trimSpaceChars (ws1 ++ "gzip".data ++ ws2) = "gzip".data := by
  unfold trimSpaceChars
  rw [List.append_assoc, dropWhile_append_of_all isSpace ws1 _ h1]
  have hd : ("gzip".data ++ ws2).dropWhile isSpace = "gzip".data ++ ws2 := by
    show ('g' :: ("zip".data ++ ws2)).dropWhile isSpace = _
    rw [List.dropWhile_cons]
    have : isSpace 'g' = false := by decide
    simp only [this, Bool.false_eq_true, if_false]
    rfl
  rw [hd, List.reverse_append,
    dropWhile_append_of_all isSpace ws2.reverse _ (fun c hc => h2 c (List.mem_reverse.1 hc))]
  show (('p' :: "izg".data).dropWhile isSpace).reverse = _
  rw [List.dropWhile_cons]
  have : isSpace 'p' = false := by decide
  simp only [this, Bool.false_eq_true, if_false]
  rfl

theorem not_mem_of_all_space (ws : List Char) (h : ∀ c ∈ ws, isSpace c = true) : ',' ∉ ws := by
  intro hm
  have := h ',' hm
  revert this
  decide

/-! ## The pieces of `Accept-Encoding`, in both directions -/

/-- `Split` gives back the comma-free pieces a value was joined from. -/
theorem splitChars_intercalate (toks : List (List Char)) (hne : toks ≠ [])
    (hcomma : ∀ t ∈ toks, ',' ∉ t) :
    splitChars ',' (List.intercalate [','] toks) = toks := by
  induction toks with
  | nil => exact absurd rfl hne
  | cons t toks ih =>
    have ht : ',' ∉ t := hcomma t (by simp)
    cases toks with
    | nil =>
      have : List.intercalate [','] [t] = t := by simp [List.intercalate, List.intersperse]
      rw [this, splitChars_of_not_mem _ _ ht]
    | cons t2 rest =>
      rw [intercalate_cons_cons, List.append_assoc, List.singleton_append,
        splitChars_append_sep, splitChars_of_not_mem _ _ ht,
        ih (by simp) (fun u hu => hcomma u (List.mem_cons_of_mem _ hu))]
      rfl

/-- The `Accept-Encoding` test on a value joined from comma-free pieces: it
succeeds exactly when some piece is `gzip` once trimmed. -/
theorem acceptGzip_iff_pieces (r : Request) (toks : List (List Char)) (hne : toks ≠ [])
    (hcomma : ∀ t ∈ toks, ',' ∉ t)
    (hae : r.Header.Get "Accept-Encoding" = ⟨List.intercalate [','] toks⟩) :
    acceptGzip r = true ↔ ∃ t ∈ toks, trimSpaceChars t = "gzip".data := by
  unfold acceptGzip Split
  rw [hae, splitChars_intercalate toks hne hcomma, List.any_eq_true]
  constructor
  · rintro ⟨e, he, hb⟩
    obtain ⟨t, ht, rfl⟩ := List.mem_map.1 he
    refine ⟨t, ht, ?_⟩
    have := eq_of_beq hb
    unfold TrimSpace at this
    exact (congrArg String.data this).symm
  · rintro ⟨t, ht, htrim⟩
    refine ⟨⟨t⟩, List.mem_map.2 ⟨t, ht, rfl⟩, ?_⟩
    unfold TrimSpace
    rw [htrim]
    rfl

theorem toLower_of_space_or_comma (c : Char) (h : isSpace c = true ∨ c = ',') :
    c.toLower = c := by
  unfold Char.toLower
  simp only
  rw [if_neg]
  rintro ⟨h1, h2⟩
  rcases h with h | h
  · unfold isSpace at h
    simp only [Bool.or_eq_true, Bool.and_eq_true, decide_eq_true_eq, beq_iff_eq] at h
    omega
  · subst h
    revert h1
    decide

theorem letter_of_toLower_mem (c : Char) (h : c.toLower ∈ "gzip".data) :
    isSpace c = false ∧ c ≠ ',' := by
  by_cases hc : isSpace c = true ∨ c = ','
  · rw [toLower_of_space_or_comma c hc] at h
    have h4 : c = 'g' ∨ c = 'z' ∨ c = 'i' ∨ c = 'p' := by
      simpa using h
    rcases h4 with h4 | h4 | h4 | h4 <;> subst h4 <;> exact ⟨by decide, by decide⟩
  · constructor
    · cases hs : isSpace c with
      | false => rfl
      | true => exact absurd (Or.inl hs) hc
    · intro he
      exact hc (Or.inr he)

theorem trimSpaceChars_core (ws1 ws2 mid : List Char) (a d : Char)
    (h1 : ∀ c ∈ ws1, isSpace c = true) (h2 : ∀ c ∈ ws2, isSpace c = true)
    (ha : isSpace a = false) (hd : isSpace d = false) :
    trimSpaceChars (ws1 ++ (a :: mid ++ [d]) ++ ws2) = a :: mid ++ [d] := by
  unfold trimSpaceChars
  rw [List.append_assoc, dropWhile_append_of_all isSpace ws1 _ h1]
  have hdrop : ((a :: mid ++ [d]) ++ ws2).dropWhile isSpace = (a :: mid ++ [d]) ++ ws2 := by
    show (a :: (mid ++ [d] ++ ws2)).dropWhile isSpace = _
    rw [List.dropWhile_cons]
    simp only [ha, Bool.false_eq_true, if_false]
    simp
  rw [hdrop, List.reverse_append,
    dropWhile_append_of_all isSpace ws2.reverse _ (fun c hc => h2 c (List.mem_reverse.1 hc))]
  have hrev : (a :: mid ++ [d]).reverse = d :: (a :: mid).reverse := by simp
  rw [hrev, List.dropWhile_cons]
  simp only [hd, Bool.false_eq_true, if_false]
  simp

/-- A piece that is `gzip` but for letter case, with white space around it, has
no comma and trims to itself as written. -/
theorem trimSpaceChars_case_variant (a core b : List Char) (ha : ∀ c ∈ a, isSpace c = true)
    (hb : ∀ c ∈ b, isSpace c = true) (hcore : core.map Char.toLower = "gzip".data) :
    ',' ∉ a ++ core ++ b ∧ trimSpaceChars (a ++ core ++ b) = core := by
  have hletters : ∀ c ∈ core, isSpace c = false ∧ c ≠ ',' := by
    intro c hc
    apply letter_of_toLower_mem
    rw [← hcore]
    exact List.mem_map_of_mem _ hc
  match core, hcore, hletters with
  | [c1, c2, c3, c4], _, hl =>
    constructor
    · intro hm
      rcases List.mem_append.1 hm with hm | hm
      · rcases List.mem_append.1 hm with hm | hm
        · exact not_mem_of_all_space a ha hm
        · exact (hl ',' hm).2 rfl
      · exact not_mem_of_all_space b hb hm
    · exact trimSpaceChars_core a b [c2, c3] c1 c4 ha hb (hl c1 (by simp)).1 (hl c4 (by simp)).1
  | [], h, _ => exact absurd h (by decide)
  | [_], h, _ => exact absurd (congrArg List.length h) (by simp)
  | [_, _], h, _ => exact absurd (congrArg List.length h) (by simp)
  | [_, _, _], h, _ => exact absurd (congrArg List.length h) (by simp)
  | _ :: _ :: _ :: _ :: _ :: _, h, _ => exact absurd (congrArg List.length h) (by simp)

/-- C8 (as amended): the `Accept-Encoding` test is a match of comma-separated
pieces that ignores surrounding white space and respects letter case.  The
value being the comma-free pieces `toks` joined by commas, with status 200, an
allow-listed `Content-Type` and a length or hint above 1024: the test, and with
it `canGzip`, succeeds exactly when some piece is `gzip` once trimmed; it
succeeds when a piece is lower-case `gzip` with white space around it; and it
fails when every piece is `gzip` but for letter case (`GZIP`, ` Gzip `). -/
theorem accept_encoding_piece_match (g : gzipRespWriter) (n : Int) (toks : List (List Char))
    (hne : toks ≠ []) (hcomma : ∀ t ∈ toks, ',' ∉ t)
    (hae : g.request.Header.Get "Accept-Encoding" = ⟨List.intercalate [','] toks⟩)
    (hst : g.statusCode = 200) (hct : gzipable (g.writer.header.Get "Content-Type") = true)
    (hlen : n > 1024 ∨ g.contentLength > 1024) :
    (acceptGzip g.request = true ↔ ∃ t ∈ toks, trimSpaceChars t = "gzip".data) ∧
    (g.canGzip n = true ↔ ∃ t ∈ toks, trimSpaceChars t = "gzip".data) ∧
    (∀ ws1 ws2 : List Char, (∀ c ∈ ws1, isSpace c = true) → (∀ c ∈ ws2, isSpace c = true) →
      ws1 ++ "gzip".data ++ ws2 ∈ toks → acceptGzip g.request = true ∧ g.canGzip n = true) ∧
    ((∀ t ∈ toks, ∃ ws1 core ws2, t = ws1 ++ core ++ ws2 ∧ (∀ c ∈ ws1, isSpace c = true) ∧
        (∀ c ∈ ws2, isSpace c = true) ∧ core.map Char.toLower = "gzip".data ∧
        core ≠ "gzip".data) →
      acceptGzip g.request = false ∧ g.canGzip n = false) := by
  have hiff := acceptGzip_iff_pieces g.request toks hne hcomma hae
  have hcan : g.canGzip n = true ↔ acceptGzip g.request = true := by
    rw [canGzip_iff]
    exact ⟨fun h => h.1, fun h => ⟨h, hst, hct, hlen⟩⟩
  refine ⟨hiff, hcan.trans hiff, ?_, ?_⟩
  · intro ws1 ws2 h1 h2 hmem
    have hacc : acceptGzip g.request = true :=
      hiff.2 ⟨_, hmem, trimSpaceChars_gzip ws1 ws2 h1 h2⟩
    exact ⟨hacc, hcan.2 hacc⟩
  · intro hall
    have hno : ¬ ∃ t ∈ toks, trimSpaceChars t = "gzip".data := by
      rintro ⟨t, ht, htrim⟩
      obtain ⟨ws1, core, ws2, e, h1, h2, hlow, hneq⟩ := hall t ht
      rw [e, (trimSpaceChars_case_variant ws1 core ws2 h1 h2 hlow).2] at htrim
      exact hneq htrim
    have hacc : acceptGzip g.request = false := by
      cases h : acceptGzip g.request with
      | false => rfl
      | true => exact absurd (hiff.1 h) hno
    refine ⟨hacc, ?_⟩
    cases h : g.canGzip n with
    | false => rfl
    | true => rw [hcan.1 h] at hacc; exact absurd hacc (by simp)

/-- C8 witness: `Accept-Encoding: deflate, gzip ` on a JSON response announcing
2000 bytes. -/
theorem accept_encoding_piece_match_witness :
    acceptGzip (requestAccepting "deflate, gzip ") = true ∧
    (newGzipRespWriter (freshSink jsonHeaders2000) (requestAccepting "deflate, gzip ")).canGzip
      2000 = true :=
  (accept_encoding_piece_match
    (newGzipRespWriter (freshSink jsonHeaders2000) (requestAccepting "deflate, gzip ")) 2000
    ["deflate".data, " gzip ".data] (by decide) (by decide) (by decide) (by decide) (by decide)
    (Or.inl (by decide))).2.2.1 [' '] [' '] (by decide) (by decide) (by decide)

/-- C8 (as stated) fails: with status 200, an allow-listed `Content-Type` and a
length of 2000, `canGzip` is false for `Accept-Encoding: GZIP` and for
`Accept-Encoding: deflate, Gzip `, whose pieces are `gzip` but for letter case. -/
theorem accept_encoding_is_case_sensitive :
    (newGzipRespWriter (freshSink jsonHeaders2000) (requestAccepting "GZIP")).statusCode = 200 ∧
    gzipable ((newGzipRespWriter (freshSink jsonHeaders2000)
      (requestAccepting "GZIP")).writer.header.Get "Content-Type") = true ∧
    acceptGzip (requestAccepting "GZIP") = false ∧
    (newGzipRespWriter (freshSink jsonHeaders2000) (requestAccepting "GZIP")).canGzip 2000
      = false ∧
    acceptGzip (requestAccepting "deflate, Gzip ") = false ∧
    (newGzipRespWriter (freshSink jsonHeaders2000)
      (requestAccepting "deflate, Gzip ")).canGzip 2000 = false := by
  decide

end GoHttpHandler

namespace GoHttpHandler

open gzipRespWriter

/-! ## The `Content-Type` test -/

theorem gzipable_iff (ct : String) :
    gzipable ct = true ↔
      ∃ g ∈ gzipableContents, ct = g ∨ (g.data ++ [';', ' ']) <+: ct.data := by
  unfold gzipable HasPrefix
  rw [List.any_eq_true]
  constructor
  · rintro ⟨g, hg, h⟩
    rw [Bool.or_eq_true] at h
    rcases h with h | h
    · exact ⟨g, hg, Or.inl (eq_of_beq h)⟩
    · exact ⟨g, hg, Or.inr (by
        have := List.isPrefixOf_iff_prefix.1 h
        simpa [String.data_append] using this)⟩
  · rintro ⟨g, hg, h | h⟩
    · exact ⟨g, hg, by rw [h]; simp⟩
    · refine ⟨g, hg, ?_⟩
      rw [Bool.or_eq_true]
      right
      apply List.isPrefixOf_iff_prefix.2
      simpa [String.data_append] using h

theorem gzipableContents_no_semicolon : ∀ g ∈ gzipableContents, ';' ∉ g.data := by
  decide

theorem takeWhile_before_semicolon (a rest : List Char) (h : ';' ∉ a) :
    (a ++ ';' :: rest).takeWhile (fun c => c != ';') = a := by
  induction a with
  | nil => simp
  | cons c a ih =>
    have hc : c ≠ ';' := fun e => h (by simp [e])
    have ha : ';' ∉ a := fun e => h (List.mem_cons_of_mem _ e)
    rw [List.cons_append, List.takeWhile_cons]
    have : (c != ';') = true := by simpa using hc
    rw [if_pos this, ih ha]

theorem takeWhile_no_semicolon (a : List Char) (h : ';' ∉ a) :
    a.takeWhile (fun c => c != ';') = a := by
  induction a with
  | nil => rfl
  | cons c a ih =>
    have hc : c ≠ ';' := fun e => h (by simp [e])
    have ha : ';' ∉ a := fun e => h (List.mem_cons_of_mem _ e)
    rw [List.takeWhile_cons]
    have : (c != ';') = true := by simpa using hc
    rw [if_pos this, ih ha]

/-- C9 (as amended): the `Content-Type` test accepts a value exactly when it is
an allow-listed type or starts with one followed by a semicolon and a space.
For every allow-listed `t` and every parameter string `p`: `t` and `t; p` pass;
`t;p` passes exactly when `p` itself begins with a space; and every value that
passes has an allow-listed part before its first semicolon. -/
theorem content_type_semicolon_space_match (t : String) (ht : t ∈ gzipableContents)
    (p : String) :
    gzipable t = true ∧ gzipable (t ++ "; " ++ p) = true ∧
    (gzipable (t ++ ";" ++ p) = true ↔ p.data.head? = some ' ') ∧
    (∀ ct, gzipable ct = true → beforeSemicolon ct ∈ gzipableContents) := by
  have hns := gzipableContents_no_semicolon
  refine ⟨(gzipable_iff t).2 ⟨t, ht, Or.inl rfl⟩, (gzipable_iff _).2 ⟨t, ht, Or.inr ?_⟩, ?_, ?_⟩
  · exact ⟨p.data, by simp [String.data_append]⟩
  · constructor
    · intro h
      obtain ⟨g, hg, h | ⟨s, hs⟩⟩ := (gzipable_iff _).1 h
      · exfalso
        apply hns g hg
        rw [← h]
        simp [String.data_append]
      · have hd : (t ++ ";" ++ p).data = t.data ++ ';' :: p.data := by
          simp [String.data_append]
        rw [hd] at hs
        have e1 := takeWhile_before_semicolon g.data (' ' :: s) (hns g hg)
        have e2 := takeWhile_before_semicolon t.data p.data (hns t ht)
        have hs2 : g.data ++ ';' :: ' ' :: s = t.data ++ ';' :: p.data := by
          rw [← hs]; simp
        have hgt : g.data = t.data := by rw [← e1, hs2, e2]
        rw [hgt] at hs2
        have := List.append_cancel_left hs2
        have hp : p.data = ' ' :: s := by
          simp only [List.cons.injEq, true_and] at this
          exact this.symm
        rw [hp]
        rfl
    · intro h
      apply (gzipable_iff _).2
      refine ⟨t, ht, Or.inr ?_⟩
      cases hp : p.data with
      | nil => rw [hp] at h; simp at h
      | cons c s =>
        rw [hp] at h
        simp only [List.head?_cons, Option.some.injEq] at h
        subst h
        exact ⟨s, by simp [String.data_append, hp]⟩
  · intro ct h
    obtain ⟨g, hg, h | ⟨s, hs⟩⟩ := (gzipable_iff _).1 h
    · subst h
      unfold beforeSemicolon
      rw [takeWhile_no_semicolon _ (hns ct hg)]
      exact hg
    · unfold beforeSemicolon
      have : ct.data = g.data ++ ';' :: ' ' :: s := by rw [← hs]; simp
      rw [this, takeWhile_before_semicolon _ _ (hns g hg)]
      exact hg

/-- C9 witness: `text/html` with the parameter `charset=utf-8`. -/
theorem content_type_semicolon_space_match_witness :
    gzipable "text/html" = true ∧ gzipable ("text/html" ++ "; " ++ "charset=utf-8") = true ∧
    (gzipable ("text/html" ++ ";" ++ "charset=utf-8") = true ↔
      "charset=utf-8".data.head? = some ' ') :=
  have h := content_type_semicolon_space_match "text/html" (by decide) "charset=utf-8"
  ⟨h.1, h.2.1, h.2.2.1⟩

/-- C9 (as stated) fails: `text/html` is allow-listed and is the part of
`text/html;charset=utf-8` before the semicolon, yet the value does not pass. -/
theorem content_type_without_space_rejected :
    "text/html" ∈ gzipableContents ∧
    beforeSemicolon "text/html;charset=utf-8" = "text/html" ∧
    gzipable ("text/html" ++ ";" ++ "charset=utf-8") = false ∧
    gzipable "text/html;charset=utf-8" = false := by
  decide

end GoHttpHandler

namespace GoHttpHandler

open gzipRespWriter

/-! ## The compressed stream -/

theorem emitAll_append_singleton (wd : World) (cs : List Bytes) (d : Bytes) :
    ∀ fed, emitAll wd fed (cs ++ [d]) = emitAll wd fed cs ++ wd.gzEmit (fed ++ cs.flatten) d := by
  induction cs with
  | nil => intro fed; simp [emitAll]
  | cons c cs ih =>
    intro fed
    show wd.gzEmit fed c ++ emitAll wd (fed ++ c) (cs ++ [d]) =
      wd.gzEmit fed c ++ emitAll wd (fed ++ c) cs ++ wd.gzEmit (fed ++ (c :: cs).flatten) d
    rw [ih, List.flatten_cons, List.append_assoc, List.append_assoc]

theorem gzipWrite_ok (wd : World) (hsink : ∀ w d, (wd.sinkWrite w d).2 = none) (fed : Bytes)
    (sw : statWriter) (w : ResponseWriter) (p : Bytes) :
    (GzipWriter.Write wd ⟨fed, none, false⟩ sw w p).1 = ⟨fed ++ p, none, false⟩ ∧
    (GzipWriter.Write wd ⟨fed, none, false⟩ sw w p).2.2.2.2 = none ∧
    (GzipWriter.Write wd ⟨fed, none, false⟩ sw w p).2.2.1.writes.flatten =
      w.writes.flatten ++ wd.gzEmit fed p := by
  unfold GzipWriter.Write
  simp only
  split
  · rename_i he
    have : wd.gzEmit fed p = [] := by simpa using he
    simp [this]
  · have herr : (statWriter.Write wd sw w (wd.gzEmit fed p)).2.2.2 = none := hsink _ _
    simp only [herr]
    refine ⟨trivial, trivial, ?_⟩
    show (w.writes ++ [wd.gzEmit fed p]).flatten = _
    simp

theorem gzipClose_ok (wd : World) (fed : Bytes) (sw : statWriter) (w : ResponseWriter) :
    (GzipWriter.Close wd ⟨fed, none, false⟩ sw w).2.2.1.writes.flatten =
      w.writes.flatten ++ wd.gzClose fed := by
  unfold GzipWriter.Close
  simp only [Bool.false_eq_true, if_false]
  show (w.writes ++ [wd.gzClose fed]).flatten = _
  simp

namespace gzipRespWriter

theorem finish_of_open (wd : World) (g : gzipRespWriter) (fed : Bytes)
    (hz : g.gzipWriter = some ⟨fed, none, false⟩) :
    (g.finish wd).gzipWriter = none ∧
    (g.finish wd).writer.writes.flatten = g.writer.writes.flatten ++ wd.gzClose fed := by
  unfold finish
  rw [hz]
  refine ⟨rfl, ?_⟩
  simp only
  rw [gzipClose_ok, (setHeader_frame g).2.2.2.2.2.2.2.2.1]

/-- The chunk `d` through an open encoder that has taken `cs`, the sink never
failing: the encoder takes `d`, and is closed if the total now equals the hint. -/
theorem throughEncoder_of_open (wd : World) (hsink : ∀ w d, (wd.sinkWrite w d).2 = none)
    (g : gzipRespWriter) (cs : List Bytes) (d : Bytes)
    (hw : g.writer.writes.flatten = emitAll wd [] cs) :
    (g.origBytes = g.contentLength →
      (throughEncoder wd g ⟨cs.flatten, none, false⟩ d).1.gzipWriter = none ∧
      (throughEncoder wd g ⟨cs.flatten, none, false⟩ d).1.writer.writes.flatten =
        gzStream wd (cs ++ [d])) ∧
    (g.origBytes ≠ g.contentLength →
      (throughEncoder wd g ⟨cs.flatten, none, false⟩ d).1.gzipWriter =
        some ⟨(cs ++ [d]).flatten, none, false⟩ ∧
      (throughEncoder wd g ⟨cs.flatten, none, false⟩ d).1.writer.writes.flatten =
        emitAll wd [] (cs ++ [d])) := by
  obtain ⟨k1, k2, k3⟩ := gzipWrite_ok wd hsink cs.flatten (g.sw.getD ⟨0⟩) g.writer d
  have hfl : (cs ++ [d]).flatten = cs.flatten ++ d := by simp
  have hem : emitAll wd [] (cs ++ [d]) = emitAll wd [] cs ++ wd.gzEmit cs.flatten d := by
    rw [emitAll_append_singleton]; simp
  unfold throughEncoder
  simp only [k2, Option.isSome_none, Bool.or_false, beq_iff_eq]
  constructor
  · intro he
    rw [if_pos he]
    obtain ⟨f1, f2⟩ := finish_of_open wd
      { g with
        writer := (GzipWriter.Write wd ⟨cs.flatten, none, false⟩ (g.sw.getD ⟨0⟩) g.writer d).2.2.1
        sw := g.sw.map
          (fun _ => (GzipWriter.Write wd ⟨cs.flatten, none, false⟩ (g.sw.getD ⟨0⟩) g.writer d).2.1)
        gzipWriter :=
          some (GzipWriter.Write wd ⟨cs.flatten, none, false⟩ (g.sw.getD ⟨0⟩) g.writer d).1 }
      (cs.flatten ++ d) (by rw [k1])
    refine ⟨f1, ?_⟩
    rw [f2]
    simp only
    rw [k3, hw, gzStream, hem, hfl]
  · intro hne
    rw [if_neg hne]
    refine ⟨by simp only; rw [k1, hfl], ?_⟩
    simp only
    rw [k3, hw, hem]

end gzipRespWriter

end GoHttpHandler

namespace GoHttpHandler

open gzipRespWriter

namespace gzipRespWriter

theorem WriteHeader_sink (g : gzipRespWriter) (c : Int) :
    (g.WriteHeader c).writer.writes = g.writer.writes ∧
    (g.written = true → (g.WriteHeader c).contentLength = g.contentLength) := by
  obtain ⟨cl, hs, hd, e⟩ := checkContentLength_shape { g with statusCode := c }
  have key : g.WriteHeader c =
      { ({ g with statusCode := c } : gzipRespWriter).checkContentLength with
        writer := (({ g with statusCode := c } : gzipRespWriter).checkContentLength).writer.WriteHeader
          c } := rfl
  refine ⟨by rw [key, e]; rfl, fun hw => ?_⟩
  rw [key, checkContentLength_of_written _ (by exact hw)]

/-- What `Write` hands to `deliver`: the decorator with the decision taken, the
byte-counting sink, the encoder and the sink's record untouched. -/
theorem decided_atDecision_shape (wd : World) (g : gzipRespWriter) (data : Bytes) :
    ∃ gc hs h cl, decided (g.atDecision wd data) data =
      { g with gzipContent := gc, headerSet := hs, contentLength := cl,
               writer := { g.writer with header := h },
               written := true, origBytes := g.origBytes + (data.length : Int) } := by
  obtain ⟨cl, hs2, hd, e2⟩ := atDecision_shape wd g data
  obtain ⟨gc, hs, h, e⟩ := decided_shape (g.atDecision wd data) data
  exact ⟨gc, hs, h, cl, by rw [e, e2]⟩

/-- `deliver` in compression mode with the pipeline either not yet made (nothing
taken) or open, the sink never failing. -/
theorem deliver_of_open (wd : World) (hsink : ∀ w d, (wd.sinkWrite w d).2 = none)
    (g : gzipRespWriter) (cs : List Bytes) (d : Bytes) (hgz : g.gzipContent = true)
    (hwr : g.written = true)
    (hp : (g.sw = none ∧ g.gzipWriter = none ∧ cs = []) ∨
      (g.sw.isSome = true ∧ g.gzipWriter = some ⟨cs.flatten, none, false⟩))
    (hw : g.writer.writes.flatten = emitAll wd [] cs)
    (ho : g.origBytes = ((cs ++ [d]).flatten.length : Int)) :
    (deliver wd g d).2.isSome = true ∧
    (g.origBytes = g.contentLength → Finished wd (deliver wd g d).1 (cs ++ [d])) ∧
    (g.origBytes ≠ g.contentLength → Encoding wd (deliver wd g d).1 (cs ++ [d])) := by
  have h5 : g.withPipeline.gzipWriter = some ⟨cs.flatten, none, false⟩ ∧
      g.withPipeline.sw.isSome = true ∧ g.withPipeline.writer = g.writer ∧
      g.withPipeline.origBytes = g.origBytes ∧ g.withPipeline.contentLength = g.contentLength ∧
      g.withPipeline.written = true ∧ g.withPipeline.gzipContent = true := by
    unfold withPipeline
    rcases hp with ⟨h1, _, h3⟩ | ⟨h1, h2⟩
    · subst h3
      rw [if_pos (by rw [h1]; rfl)]
      exact ⟨rfl, rfl, rfl, rfl, rfl, hwr, hgz⟩
    · have : g.sw.isNone = false := by
        cases hsw : g.sw with
        | none => rw [hsw] at h1; simp at h1
        | some s => rfl
      rw [if_neg (by rw [this]; simp)]
      exact ⟨h2, h1, rfl, rfl, rfl, hwr, hgz⟩
  obtain ⟨p1, p2, p3, p4, p5, p6, p7⟩ := h5
  obtain ⟨t1, t2⟩ := throughEncoder_of_open wd hsink g.withPipeline cs d (by rw [p3]; exact hw)
  obtain ⟨f1, f2, _, f4, f5, _⟩ :=
    throughEncoder_frame wd g.withPipeline ⟨cs.flatten, none, false⟩ d
  have fsw := throughEncoder_sw wd g.withPipeline ⟨cs.flatten, none, false⟩ d
  have hd : deliver wd g d =
      ((throughEncoder wd g.withPipeline ⟨cs.flatten, none, false⟩ d).1,
        some (throughEncoder wd g.withPipeline ⟨cs.flatten, none, false⟩ d).2) := by
    unfold deliver
    rw [if_pos hgz, p1]
  rw [hd]
  refine ⟨rfl, fun he => ?_, fun hne => ?_⟩
  · obtain ⟨a1, a2⟩ := t1 (by rw [p4, p5]; exact he)
    exact ⟨f1.trans p6, f2.trans p7, a1, a2⟩
  · obtain ⟨a1, a2⟩ := t2 (by rw [p4, p5]; exact hne)
    exact ⟨f1.trans p6, f2.trans p7, fsw.trans p2, a1, a2, by rw [f4, p4]; exact ho⟩

/-- A `Write` that compresses, on a decorator on which nothing was written or
whose encoder is open, the sink never failing. -/
theorem Write_of_open (wd : World) (hsink : ∀ w d, (wd.sinkWrite w d).2 = none)
    (g : gzipRespWriter) (cs : List Bytes) (d : Bytes)
    (hp : (Pristine g ∧ cs = []) ∨ Encoding wd g cs)
    (hgz : (g.Write wd d).1.gzipContent = true) :
    (g.Write wd d).2.isSome = true ∧
    (g.Write wd d).1.origBytes = g.origBytes + (d.length : Int) ∧
    (g.origBytes + (d.length : Int) = (g.Write wd d).1.contentLength →
      Finished wd (g.Write wd d).1 (cs ++ [d])) ∧
    (g.origBytes + (d.length : Int) ≠ (g.Write wd d).1.contentLength →
      Encoding wd (g.Write wd d).1 (cs ++ [d])) := by
  obtain ⟨gc, hs, h, cl, e⟩ := decided_atDecision_shape wd g d
  obtain ⟨_, d2, _, d4, d5, _⟩ := deliver_frame wd (decided (g.atDecision wd d) d) d
  have hW : g.Write wd d = deliver wd (decided (g.atDecision wd d) d) d := rfl
  have hgc : (decided (g.atDecision wd d) d).gzipContent = true := by
    rw [← d2, ← hW]; exact hgz
  have hob : (decided (g.atDecision wd d) d).origBytes = g.origBytes + (d.length : Int) := by
    rw [e]
  have hfl : ((cs ++ [d]).flatten.length : Int) = (cs.flatten.length : Int) + (d.length : Int) := by
    simp
  obtain ⟨r1, r2, r3⟩ := deliver_of_open wd hsink (decided (g.atDecision wd d) d) cs d hgc
    (by rw [e])
    (by
      rcases hp with ⟨⟨_, _, q3, q4, _, _⟩, hcs⟩ | ⟨_, _, q3, q4, _, _⟩
      · left; rw [e]; exact ⟨q4, q3, hcs⟩
      · right; rw [e]; exact ⟨q3, q4⟩)
    (by
      rcases hp with ⟨⟨_, _, _, _, q5, _⟩, hcs⟩ | ⟨_, _, _, _, q5, _⟩
      · subst hcs; rw [e]; exact q5
      · rw [e]; exact q5)
    (by
      rw [hob, hfl]
      rcases hp with ⟨⟨_, _, _, _, _, q6⟩, hcs⟩ | ⟨_, _, _, _, _, q6⟩
      · subst hcs; rw [q6]; simp
      · rw [q6])
  rw [hW]
  refine ⟨r1, d4.trans hob, ?_, ?_⟩
  · intro he
    exact r2 (by rw [hob, ← d5]; exact he)
  · intro hne
    exact r3 (by rw [hob, ← d5]; exact hne)

end gzipRespWriter

/-- A status call or a header mutation changes neither the phase of the
decorator nor, once something was written, the hint. -/
theorem step_quiet (wd : World) (g : gzipRespWriter) (op : Op) (cs : List Bytes)
    (hop : chunksOf [op] = []) (hnf : op ≠ .finish) :
    (step wd g op).2 = false ∧ (step wd g op).1.origBytes = g.origBytes ∧
    (Pristine g → Pristine (step wd g op).1) ∧
    (Encoding wd g cs → Encoding wd (step wd g op).1 cs) ∧
    (Finished wd g cs → Finished wd (step wd g op).1 cs) := by
  cases op with
  | headers h =>
    exact ⟨rfl, rfl, fun hp => hp, fun hp => hp, fun hp => hp⟩
  | WriteHeader c =>
    obtain ⟨f1, f2, _, _, f5, f6, f7⟩ := WriteHeader_frame g c
    obtain ⟨f8, _⟩ := WriteHeader_sink g c
    have hstep : step wd g (.WriteHeader c) = (g.WriteHeader c, false) := rfl
    rw [hstep]
    refine ⟨rfl, f5, ?_, ?_, ?_⟩
    · rintro ⟨q1, q2, q3, q4, q5, q6⟩
      exact ⟨f1.trans q1, f2.trans q2, f7.trans q3, f6.trans q4, by rw [f8]; exact q5,
        f5.trans q6⟩
    · rintro ⟨q1, q2, q3, q4, q5, q6⟩
      exact ⟨f1.trans q1, f2.trans q2, by rw [f6]; exact q3, f7.trans q4, by rw [f8]; exact q5,
        f5.trans q6⟩
    · rintro ⟨q1, q2, q3, q4⟩
      exact ⟨f1.trans q1, f2.trans q2, f7.trans q3, by rw [f8]; exact q4⟩
  | Write d => simp [chunksOf] at hop
  | finish => exact absurd rfl hnf

theorem exec_finished (wd : World) (cs : List Bytes) (ops : List Op) :
    ∀ g : gzipRespWriter, Finished wd g cs → chunksOf ops = [] → Op.finish ∉ ops →
      faultFree wd g ops = true ∧ Finished wd (exec wd g ops) cs := by
  induction ops with
  | nil => intro g hf _ _; exact ⟨rfl, hf⟩
  | cons op ops ih =>
    intro g hf hc hnf
    rw [chunksOf_cons] at hc
    obtain ⟨hc1, hc2⟩ := List.append_eq_nil.1 hc
    obtain ⟨s1, _, _, _, s5⟩ := step_quiet wd g op cs hc1 (fun e => hnf (by simp [e]))
    obtain ⟨i1, i2⟩ := ih (step wd g op).1 (s5 hf) hc2 (fun e => hnf (List.mem_cons_of_mem _ e))
    rw [exec_cons]
    exact ⟨by simp [faultFree, s1, i1], i2⟩

theorem exec_contentLength_of_written (wd : World) (ops : List Op) :
    ∀ g : gzipRespWriter, g.written = true → (exec wd g ops).contentLength = g.contentLength := by
  induction ops with
  | nil => intro g _; rfl
  | cons op ops ih =>
    intro g hw
    rw [exec_cons, ih _ (step_of_written wd g op hw).1]
    cases op with
    | headers h => rfl
    | WriteHeader c => exact (WriteHeader_sink g c).2 hw
    | Write d => exact ((Write_frame wd g d).2.2.2 hw).2
    | finish => exact (finish_frame wd g).2.2.2.2.1

/-- The calls of a handler on a decorator that compresses, the sink never
failing and the hint reached by no `Write` but the last: no call faults, and
the encoder is left open or closed with every chunk taken. -/
theorem exec_compressing (wd : World) (hsink : ∀ w d, (wd.sinkWrite w d).2 = none)
    (ops : List Op) :
    ∀ (g : gzipRespWriter) (cs : List Bytes), (Pristine g ∧ cs = []) ∨ Encoding wd g cs →
      Op.finish ∉ ops → (exec wd g ops).gzipContent = true →
      hintOnlyAtEnd (exec wd g ops).contentLength g.origBytes ops = true →
      faultFree wd g ops = true ∧
      (Encoding wd (exec wd g ops) (cs ++ chunksOf ops) ∨
        Finished wd (exec wd g ops) (cs ++ chunksOf ops)) := by
  induction ops with
  | nil =>
    intro g cs hp _ hgz _
    rcases hp with ⟨⟨_, q2, _⟩, _⟩ | hp
    · rw [show exec wd g [] = g from rfl, q2] at hgz
      exact absurd hgz (by simp)
    · exact ⟨rfl, Or.inl (by simpa [chunksOf] using hp)⟩
  | cons op ops ih =>
    intro g cs hp hnf hgz hh
    have hnf2 : Op.finish ∉ ops := fun e => hnf (List.mem_cons_of_mem _ e)
    rw [exec_cons] at hgz hh
    cases op with
    | Write d =>
      have hstep1 : (step wd g (.Write d)).1 = (g.Write wd d).1 := rfl
      have hwr : (g.Write wd d).1.written = true := (Write_frame wd g d).1
      rw [hstep1] at hgz hh
      rw [(exec_of_written wd ops _ hwr).2] at hgz
      rw [exec_contentLength_of_written wd ops _ hwr] at hh
      obtain ⟨w1, w2, w3, w4⟩ := Write_of_open wd hsink g cs d hp hgz
      simp only [hintOnlyAtEnd, Bool.and_eq_true, Bool.or_eq_true, bne_iff_ne, ne_eq,
        List.isEmpty_iff] at hh
      obtain ⟨hh1, hh2⟩ := hh
      have hff : (step wd g (.Write d)).2 = false := by
        show (g.Write wd d).2.isNone = false
        cases hr : (g.Write wd d).2 with
        | none => rw [hr] at w1; simp at w1
        | some r => rfl
      rw [exec_cons, hstep1, chunksOf_cons, show chunksOf [Op.Write d] = [d] from rfl,
        ← List.append_assoc]
      by_cases he : g.origBytes + (d.length : Int) = (g.Write wd d).1.contentLength
      · have hno : chunksOf ops = [] := by
          rcases hh1 with hh1 | hh1
          · exact absurd he hh1
          · exact hh1
        obtain ⟨i1, i2⟩ := exec_finished wd (cs ++ [d]) ops _ (w3 he) hno hnf2
        refine ⟨by simp [faultFree, hff, hstep1, i1], Or.inr ?_⟩
        rw [hno, List.append_nil]
        exact i2
      · obtain ⟨i1, i2⟩ := ih (g.Write wd d).1 (cs ++ [d]) (Or.inr (w4 he)) hnf2
          (by rw [(exec_of_written wd ops _ hwr).2]; exact hgz)
          (by rw [exec_contentLength_of_written wd ops _ hwr, w2]; exact hh2)
        exact ⟨by simp [faultFree, hff, hstep1, i1], i2⟩
    | headers h =>
      obtain ⟨s1, s2, s3, s4, _⟩ := step_quiet wd g (.headers h) cs rfl (by simp)
      obtain ⟨i1, i2⟩ := ih (step wd g (.headers h)).1 cs
        (by
          rcases hp with ⟨hp, hcs⟩ | hp
          · exact Or.inl ⟨s3 hp, hcs⟩
          · exact Or.inr (s4 hp))
        hnf2 hgz (by rw [s2]; exact hh)
      rw [exec_cons, chunksOf_cons, show chunksOf [Op.headers h] = [] from rfl, List.nil_append]
      exact ⟨by simp [faultFree, s1, i1], i2⟩
    | WriteHeader c =>
      obtain ⟨s1, s2, s3, s4, _⟩ := step_quiet wd g (.WriteHeader c) cs rfl (by simp)
      obtain ⟨i1, i2⟩ := ih (step wd g (.WriteHeader c)).1 cs
        (by
          rcases hp with ⟨hp, hcs⟩ | hp
          · exact Or.inl ⟨s3 hp, hcs⟩
          · exact Or.inr (s4 hp))
        hnf2 hgz (by rw [s2]; exact hh)
      rw [exec_cons, chunksOf_cons, show chunksOf [Op.WriteHeader c] = [] from rfl,
        List.nil_append]
      exact ⟨by simp [faultFree, s1, i1], i2⟩
    | finish => exact absurd (List.mem_cons_self _ _) hnf

end GoHttpHandler

namespace GoHttpHandler

open gzipRespWriter

/-- C2 (as amended): a response for which compression was chosen (the decision of
the first `Write`, which later calls keep), on a fresh sink whose writes never
fail, the running byte total reaching the `Content-Length` hint at no `Write`
but possibly the last.  Then `ServeHTTP` runs the handler and `finish` without
fault, the bytes the sink has received are exactly the encoder's stream for the
handler's chunks in order followed by its closing bytes, and decoding them
yields the bytes the handler wrote. -/
theorem eligible_body_round_trips (wd : World) (decode : Bytes → Option Bytes)
    (hcodec : ∀ chunks, decode (gzStream wd chunks) = some chunks.flatten)
    (hsink : ∀ w d, (wd.sinkWrite w d).2 = none)
    (w : ResponseWriter) (r : Request) (hw : w.writes = [])
    (handler : HttpLogGzipHandler) (hnf : Op.finish ∉ handler.impl)
    (hgz : (exec wd (newGzipRespWriter w r) handler.impl).gzipContent = true)
    (hh : hintOnlyAtEnd (exec wd (newGzipRespWriter w r) handler.impl).contentLength 0
      handler.impl = true)
    (millis : Int) (ip : List Char)
    (hip : beforeLastChars ':' r.RemoteAddr.data = some ip) :
    ∃ served, handler.ServeHTTP wd millis w r = some served ∧
      served.2.writes.flatten = gzStream wd (chunksOf handler.impl) ∧
      decode served.2.writes.flatten = some (chunksOf handler.impl).flatten := by
  have h0 : Pristine (newGzipRespWriter w r) := by
    refine ⟨rfl, rfl, rfl, rfl, ?_, rfl⟩
    show w.writes.flatten = []
    rw [hw]; rfl
  obtain ⟨hf, hphase⟩ := exec_compressing wd hsink handler.impl (newGzipRespWriter w r) []
    (Or.inl ⟨h0, rfl⟩) hnf hgz hh
  rw [List.nil_append] at hphase
  obtain ⟨tx, _, hserve⟩ := ServeHTTP_of_faultFree wd handler millis w r ip hf hip
  have hbytes : ((exec wd (newGzipRespWriter w r) handler.impl).finish wd).writer.writes.flatten =
      gzStream wd (chunksOf handler.impl) := by
    rcases hphase with ⟨_, _, _, q4, q5, _⟩ | ⟨_, _, q3, q4⟩
    · rw [(finish_of_open wd _ _ q4).2, q5]
      rfl
    · rw [finish_of_no_encoder wd _ q3]
      exact q4
  refine ⟨_, hserve, hbytes, ?_⟩
  show decode ((exec wd (newGzipRespWriter w r) handler.impl).finish wd).writer.writes.flatten = _
  rw [hbytes, hcodec]

theorem emitAll_plainWorld (cs : List Bytes) : ∀ fed, emitAll plainWorld fed cs = cs.flatten := by
  induction cs with
  | nil => intro fed; rfl
  | cons c cs ih =>
    intro fed
    show c ++ emitAll plainWorld (fed ++ c) cs = (c :: cs).flatten
    rw [ih, List.flatten_cons]

theorem gzStream_plainWorld (cs : List Bytes) : gzStream plainWorld cs = cs.flatten := by
  unfold gzStream
  rw [emitAll_plainWorld]
  show cs.flatten ++ [] = cs.flatten
  rw [List.append_nil]

theorem emitAll_brokenPipeWorld (cs : List Bytes) :
    ∀ fed, emitAll brokenPipeWorld fed cs = cs.flatten := by
  induction cs with
  | nil => intro fed; rfl
  | cons c cs ih =>
    intro fed
    show c ++ emitAll brokenPipeWorld (fed ++ c) cs = (c :: cs).flatten
    rw [ih, List.flatten_cons]

/-- The decoder of `brokenPipeWorld` undoes its encoder: a whole stream decodes
to the concatenation of the chunks. -/
theorem dropClosingByte_gzStream (cs : List Bytes) :
    dropClosingByte (gzStream brokenPipeWorld cs) = some cs.flatten := by
  unfold gzStream
  rw [emitAll_brokenPipeWorld]
  show dropClosingByte (cs.flatten ++ [0]) = some cs.flatten
  unfold dropClosingByte
  simp

/-- C2 witness: a JSON response announcing 2000 bytes, two chunks written, the
identity codec of `plainWorld`. -/
theorem eligible_body_round_trips_witness :
    ∃ served,
      HttpLogGzipHandler.ServeHTTP plainWorld ⟨[.Write (body 16), .Write (body 8)], []⟩ 3
        (freshSink jsonHeaders2000) (requestAccepting "gzip") = some served ∧
      served.2.writes.flatten =
        gzStream plainWorld (chunksOf [.Write (body 16), .Write (body 8)]) ∧
      some served.2.writes.flatten = some (chunksOf [.Write (body 16), .Write (body 8)]).flatten :=
  eligible_body_round_trips plainWorld some
    (fun chunks => by rw [gzStream_plainWorld]) (fun _ _ => rfl)
    (freshSink jsonHeaders2000) (requestAccepting "gzip") rfl
    ⟨[.Write (body 16), .Write (body 8)], []⟩ (by decide) (by decide) (by decide) 3
    "10.0.0.1".data (by decide)

/-- C2 (as stated) fails: compression is chosen on the first `Write`, the sink
fails that write, `ServeHTTP` runs the handler and `finish`; the encoder's
closing byte is never sent, so neither the bytes handed to the sink nor the
empty sequence the sink accepted decodes to the chunk the handler wrote. -/
theorem failed_sink_truncates_stream :
    (exec brokenPipeWorld
      (newGzipRespWriter (freshSink jsonHeaders2000) (requestAccepting "gzip"))
      [.Write (body 16)]).gzipContent = true ∧
    (HttpLogGzipHandler.ServeHTTP brokenPipeWorld ⟨[.Write (body 16)], []⟩ 3
      (freshSink jsonHeaders2000) (requestAccepting "gzip")).map
        (fun served => served.2.writes.flatten) = some (body 16) ∧
    (chunksOf [.Write (body 16)]).flatten = body 16 ∧
    dropClosingByte (body 16) = none ∧ dropClosingByte [] = none := by
  decide

end GoHttpHandler

namespace GoHttpHandler

open gzipRespWriter

/-! ## The hint taken from the header -/

theorem parseInt32_of_empty (s : String) (h : s.length = 0) : parseInt32 s = none := by
  have hd : s.data = [] := List.length_eq_zero.1 h
  unfold parseInt32
  rw [hd]
  rfl

namespace gzipRespWriter

theorem setHeader_contentType (g : gzipRespWriter) :
    g.setHeader.writer.header.Get "Content-Type" = g.writer.header.Get "Content-Type" := by
  unfold setHeader
  split
  · rfl
  · show ((g.writer.header.Set "Content-Encoding" "gzip").Del "Content-Length").Get
      "Content-Type" = _
    rw [Header.Get_Del_other _ _ _ (by decide), Header.Get_Set_other _ _ _ _ (by decide)]

theorem checkContentLength_contentType (g : gzipRespWriter) :
    g.checkContentLength.writer.header.Get "Content-Type" =
      g.writer.header.Get "Content-Type" := by
  unfold checkContentLength
  split
  · rfl
  · simp only
    split
    · split
      · split
        · exact setHeader_contentType _
        · rfl
      · rfl
    · rfl

/-- On a decorator without hint on which nothing was written, a header value
that parses becomes the hint. -/
theorem checkContentLength_parsed (g : gzipRespWriter) (N : Int) (hc : g.contentLength = 0)
    (hw : g.written = false) (hN : parseInt32 (g.writer.header.Get "Content-Length") = some N) :
    g.checkContentLength.contentLength = N := by
  have hlen : (g.Header.Get "Content-Length").length > 0 := by
    rcases Nat.eq_zero_or_pos (g.Header.Get "Content-Length").length with h0 | h0
    · have := parseInt32_of_empty _ h0
      rw [show g.Header = g.writer.header from rfl, hN] at this
      exact absurd this (by simp)
    · exact h0
  have hN2 : parseInt32 (g.Header.Get "Content-Length") = some N := hN
  unfold checkContentLength
  rw [if_neg (by simp [hc, hw])]
  simp only [hlen, if_true, hN2]
  split
  · rw [(setHeader_frame _).2.2.2.2.1]
  · rfl

theorem atDecision_contentType (wd : World) (g : gzipRespWriter) (data : Bytes) :
    (g.atDecision wd data).writer.header.Get "Content-Type" =
      contentTypeAt wd g.writer.header data := by
  unfold atDecision contentTypeAt
  simp only
  split
  · rw [checkContentLength_contentType]
    exact Header.Get_Set_same _ _ _
  · exact checkContentLength_contentType g

theorem atDecision_parsed (wd : World) (g : gzipRespWriter) (data : Bytes) (N : Int)
    (hc : g.contentLength = 0) (hw : g.written = false)
    (hN : parseInt32 (g.writer.header.Get "Content-Length") = some N) :
    (g.atDecision wd data).contentLength = N := by
  unfold atDecision
  simp only
  split
  · refine checkContentLength_parsed _ N (by exact hc) (by exact hw) ?_
    show parseInt32 ((g.writer.header.Set "Content-Type" _).Get "Content-Length") = some N
    rw [Header.Get_Set_other _ _ _ _ (by decide)]
    exact hN
  · exact checkContentLength_parsed g N hc hw hN

/-- The first `Write`: the decision is `canGzip` on the decorator at the decision,
and the hint is the one that decorator holds. -/
theorem Write_first (wd : World) (g : gzipRespWriter) (data : Bytes) (hw : g.written = false) :
    (g.Write wd data).1.gzipContent = (g.atDecision wd data).canGzip (data.length : Int) ∧
    (g.Write wd data).1.contentLength = (g.atDecision wd data).contentLength := by
  obtain ⟨cl, hs, hd, e⟩ := atDecision_shape wd g data
  have hw2 : (g.atDecision wd data).written = false := by rw [e]; exact hw
  obtain ⟨_, d2, _, _, d5, _⟩ := deliver_frame wd (decided (g.atDecision wd data) data) data
  have hW : g.Write wd data = deliver wd (decided (g.atDecision wd data) data) data := rfl
  rw [hW, d2, d5]
  unfold decided
  simp only [hw2, Bool.not_false, if_true]
  split
  · rename_i hc
    rw [(setHeader_frame _).2.1, (setHeader_frame _).2.2.2.2.1]
    exact ⟨rfl, rfl⟩
  · exact ⟨rfl, rfl⟩

end gzipRespWriter

end GoHttpHandler

namespace GoHttpHandler

open gzipRespWriter

theorem flatten_length_pos (cs : List Bytes) (hne : ∀ c ∈ cs, c ≠ []) (hcs : cs ≠ []) :
    0 < cs.flatten.length := by
  cases cs with
  | nil => exact absurd rfl hcs
  | cons c cs =>
    have hc : c ≠ [] := hne c (by simp)
    have : 0 < c.length := List.length_pos.2 hc
    simp only [List.flatten_cons, List.length_append]
    omega

/-- Non-empty chunks through an open encoder, the sink never failing, the hint
being `N`: while the total stays below `N` the encoder stays open; when the
last chunk brings the total to `N` the encoder is closed and cleared. -/
theorem exec_writes_to_hint (wd : World) (hsink : ∀ w d, (wd.sinkWrite w d).2 = none)
    (N : Int) (more : List Bytes) :
    ∀ (g : gzipRespWriter) (cs : List Bytes), Encoding wd g cs → g.contentLength = N →
      (∀ c ∈ more, c ≠ []) →
      (g.origBytes + (more.flatten.length : Int) < N →
        faultFree wd g (more.map Op.Write) = true ∧
        Encoding wd (exec wd g (more.map Op.Write)) (cs ++ more)) ∧
      (more ≠ [] → g.origBytes + (more.flatten.length : Int) = N →
        faultFree wd g (more.map Op.Write) = true ∧
        Finished wd (exec wd g (more.map Op.Write)) (cs ++ more)) := by
  induction more with
  | nil =>
    intro g cs he _ _
    exact ⟨fun _ => ⟨rfl, by simpa using he⟩, fun h => absurd rfl h⟩
  | cons c more ih =>
    intro g cs he hN hne
    have hwr : g.written = true := he.1
    have hgz : (g.Write wd c).1.gzipContent = true := by
      rw [((Write_frame wd g c).2.2.2 hwr).1]; exact he.2.1
    have hcl : (g.Write wd c).1.contentLength = N := by
      rw [((Write_frame wd g c).2.2.2 hwr).2]; exact hN
    obtain ⟨w1, w2, w3, w4⟩ := Write_of_open wd hsink g cs c (Or.inr he) hgz
    rw [hcl] at w3 w4
    have hff : (step wd g (.Write c)).2 = false := by
      show (g.Write wd c).2.isNone = false
      cases hr : (g.Write wd c).2 with
      | none => rw [hr] at w1; simp at w1
      | some r => rfl
    have hstep1 : (step wd g (.Write c)).1 = (g.Write wd c).1 := rfl
    have hne2 : ∀ d ∈ more, d ≠ [] := fun d hd => hne d (List.mem_cons_of_mem _ hd)
    have hcpos : 0 < c.length := List.length_pos.2 (hne c (by simp))
    have hlen : (((c :: more).flatten.length : Nat) : Int) =
        (c.length : Int) + (more.flatten.length : Int) := by simp
    have happ : cs ++ c :: more = (cs ++ [c]) ++ more := by simp
    rw [List.map_cons, exec_cons, hstep1, happ, hlen]
    constructor
    · intro hlt
      have hne1 : g.origBytes + (c.length : Int) ≠ N := by omega
      obtain ⟨i1, i2⟩ := (ih (g.Write wd c).1 (cs ++ [c]) (w4 hne1) hcl hne2).1
        (by rw [w2]; omega)
      exact ⟨by simp [faultFree, hff, hstep1, i1], i2⟩
    · intro _ heq
      by_cases hm : more = []
      · subst hm
        have he1 : g.origBytes + (c.length : Int) = N := by simpa using heq
        refine ⟨by simp [faultFree, hff], ?_⟩
        simpa [exec] using w3 he1
      · have hpos := flatten_length_pos more hne2 hm
        have hne1 : g.origBytes + (c.length : Int) ≠ N := by omega
        obtain ⟨i1, i2⟩ := (ih (g.Write wd c).1 (cs ++ [c]) (w4 hne1) hcl hne2).2 hm
          (by rw [w2]; omega)
        exact ⟨by simp [faultFree, hff, hstep1, i1], i2⟩

end GoHttpHandler

namespace GoHttpHandler

open gzipRespWriter

/-- C11: a fresh decorator on a fresh sink whose writes never fail; the map
announces a `Content-Length` that parses to `N > 1024`; the client accepts
gzip and the `Content-Type` in force at the first chunk is allow-listed; the
handler only writes, non-empty chunks `first :: rest` of `N` bytes in all (no
`WriteHeader`, no `finish`).  Then no call faults; after every chunk before the
last compression is chosen and the encoder is open, having taken the chunks so
far; and after the last chunk the encoder has been closed and cleared, the sink
holding the whole stream. -/
theorem hint_reached_closes_encoder (wd : World) (hsink : ∀ w d, (wd.sinkWrite w d).2 = none)
    (w : ResponseWriter) (r : Request) (hw : w.writes = []) (N : Int)
    (hN : parseInt32 (w.header.Get "Content-Length") = some N) (hbig : N > 1024)
    (hacc : acceptGzip r = true) (first : Bytes) (rest : List Bytes)
    (hct : gzipable (contentTypeAt wd w.header first) = true)
    (hne : ∀ c ∈ first :: rest, c ≠ [])
    (htot : (((first :: rest).flatten.length : Nat) : Int) = N) :
    faultFree wd (newGzipRespWriter w r) ((first :: rest).map Op.Write) = true ∧
    (∀ pre post, first :: rest = pre ++ post → pre ≠ [] → post ≠ [] →
      (exec wd (newGzipRespWriter w r) (pre.map Op.Write)).gzipContent = true ∧
      (exec wd (newGzipRespWriter w r) (pre.map Op.Write)).gzipWriter =
        some ⟨pre.flatten, none, false⟩) ∧
    (exec wd (newGzipRespWriter w r) ((first :: rest).map Op.Write)).gzipContent = true ∧
    (exec wd (newGzipRespWriter w r) ((first :: rest).map Op.Write)).gzipWriter = none ∧
    (exec wd (newGzipRespWriter w r) ((first :: rest).map Op.Write)).writer.writes.flatten =
      gzStream wd (first :: rest) := by
  have h0 : Pristine (newGzipRespWriter w r) := by
    refine ⟨rfl, rfl, rfl, rfl, ?_, rfl⟩
    show w.writes.flatten = []
    rw [hw]; rfl
  obtain ⟨f1, f2⟩ := Write_first wd (newGzipRespWriter w r) first rfl
  have hcl : ((newGzipRespWriter w r).Write wd first).1.contentLength = N := by
    rw [f2]; exact atDecision_parsed wd _ first N rfl rfl hN
  have hgz : ((newGzipRespWriter w r).Write wd first).1.gzipContent = true := by
    rw [f1]
    apply (canGzip_iff _ _).2
    obtain ⟨cl, hs, hd, e⟩ := atDecision_shape wd (newGzipRespWriter w r) first
    refine ⟨by rw [e]; exact hacc, by rw [e]; rfl, ?_, Or.inr ?_⟩
    · rw [atDecision_contentType]; exact hct
    · rw [atDecision_parsed wd _ first N rfl rfl hN]; exact hbig
  obtain ⟨w1, w2, w3, w4⟩ := Write_of_open wd hsink (newGzipRespWriter w r) [] first
    (Or.inl ⟨h0, rfl⟩) hgz
  rw [hcl, List.nil_append] at w3 w4
  have ho1 : ((newGzipRespWriter w r).Write wd first).1.origBytes = (first.length : Int) := by
    rw [w2]; show (0 : Int) + _ = _; omega
  have ho0 : (newGzipRespWriter w r).origBytes + (first.length : Int) = (first.length : Int) := by
    show (0 : Int) + _ = _; omega
  rw [ho0] at w3 w4
  have hff : (step wd (newGzipRespWriter w r) (.Write first)).2 = false := by
    show ((newGzipRespWriter w r).Write wd first).2.isNone = false
    cases hr : ((newGzipRespWriter w r).Write wd first).2 with
    | none => rw [hr] at w1; simp at w1
    | some x => rfl
  have hstep1 : (step wd (newGzipRespWriter w r) (.Write first)).1 =
      ((newGzipRespWriter w r).Write wd first).1 := rfl
  have hne2 : ∀ d ∈ rest, d ≠ [] := fun d hd => hne d (List.mem_cons_of_mem _ hd)
  have hlen : (((first :: rest).flatten.length : Nat) : Int) =
      (first.length : Int) + (rest.flatten.length : Int) := by simp
  rw [hlen] at htot
  have hfin : faultFree wd (newGzipRespWriter w r) ((first :: rest).map Op.Write) = true ∧
      Finished wd (exec wd (newGzipRespWriter w r) ((first :: rest).map Op.Write))
        (first :: rest) := by
    rw [List.map_cons, exec_cons, hstep1]
    by_cases hr : rest = []
    · subst hr
      have he1 : (first.length : Int) = N := by simpa using htot
      exact ⟨by simp [faultFree, hff], by simpa [exec] using w3 he1⟩
    · have hpos := flatten_length_pos rest hne2 hr
      have hne1 : (first.length : Int) ≠ N := by omega
      obtain ⟨i1, i2⟩ := (exec_writes_to_hint wd hsink N rest _ [first] (w4 hne1) hcl hne2).2 hr
        (by rw [ho1]; exact htot)
      exact ⟨by simp [faultFree, hff, hstep1, i1], by simpa using i2⟩
  refine ⟨hfin.1, ?_, hfin.2.2.1, hfin.2.2.2.1, hfin.2.2.2.2⟩
  intro pre post hsplit hpre hpost
  cases pre with
  | nil => exact absurd rfl hpre
  | cons p pre =>
    rw [List.cons_append] at hsplit
    obtain ⟨hp, hrest⟩ := List.cons.inj hsplit
    subst hp
    have hpostpos := flatten_length_pos post
      (fun d hd => hne2 d (by rw [hrest]; exact List.mem_append_right _ hd)) hpost
    have hrl : (rest.flatten.length : Int) =
        (pre.flatten.length : Int) + (post.flatten.length : Int) := by
      rw [hrest]; simp
    have hne1 : (first.length : Int) ≠ N := by omega
    obtain ⟨_, i2⟩ := (exec_writes_to_hint wd hsink N pre _ [first] (w4 hne1) hcl
      (fun d hd => hne2 d (by rw [hrest]; exact List.mem_append_left _ hd))).1
      (by rw [ho1]; omega)
    rw [List.map_cons, exec_cons, hstep1]
    exact ⟨i2.2.1, by simpa using i2.2.2.2.1⟩

theorem body_length (n : Nat) : (body n).length = n := by
  unfold body
  exact List.length_replicate _ _

theorem body_ne_nil (n : Nat) (h : 0 < n) : body n ≠ [] := by
  intro e
  have := congrArg List.length e
  rw [body_length] at this
  simp only [List.length_nil] at this
  omega

/-- C11 witness: `Content-Length: 2000` announced, chunks of 1500 and 500 bytes. -/
theorem hint_reached_closes_encoder_witness :
    faultFree plainWorld
      (newGzipRespWriter (freshSink jsonHeaders2000) (requestAccepting "gzip"))
      ((body 1500 :: [body 500]).map Op.Write) = true ∧
    (exec plainWorld (newGzipRespWriter (freshSink jsonHeaders2000) (requestAccepting "gzip"))
      ((body 1500 :: [body 500]).map Op.Write)).gzipWriter = none :=
  have h := hint_reached_closes_encoder plainWorld (fun _ _ => rfl) (freshSink jsonHeaders2000)
    (requestAccepting "gzip") rfl 2000 (by decide) (by decide) (by decide) (body 1500)
    [body 500] (by decide)
    (by
      intro c hc
      simp only [List.mem_cons, List.mem_singleton, List.not_mem_nil, or_false] at hc
      rcases hc with hc | hc
      · rw [hc]; exact body_ne_nil 1500 (by decide)
      · rw [hc]; exact body_ne_nil 500 (by decide))
    (by
      simp only [List.flatten_cons, List.flatten_nil, List.length_append, body_length,
        List.length_nil]
      decide)
  ⟨h.1, h.2.2.2.1⟩

end GoHttpHandler

namespace GoHttpHandler

open gzipRespWriter

/-- C12: a `Write` in compression mode whose encoder `z` returns the error `e`
for the chunk: `Write` returns the encoder's count with that same error, the
decorator it leaves is `finish` of the decorator as the encoder left it (so
`finish` has run, calling `Close` on the encoder), and the encoder reference
is cleared. -/
theorem encoder_error_returned_and_finished (wd : World) (grw : gzipRespWriter) (data : Bytes)
    (z : GzipWriter) (e : String)
    (hgz : (decided (grw.atDecision wd data) data).gzipContent = true)
    (hz : (atEncoder wd grw data).gzipWriter = some z)
    (herr : (z.Write wd ((atEncoder wd grw data).sw.getD ⟨0⟩) (atEncoder wd grw data).writer
      data).2.2.2.2 = some e) :
    (grw.Write wd data).2 =
      some ((z.Write wd ((atEncoder wd grw data).sw.getD ⟨0⟩) (atEncoder wd grw data).writer
        data).2.2.2.1, some e) ∧
    (grw.Write wd data).1 = (afterEncoder wd (atEncoder wd grw data) z data).finish wd ∧
    (grw.Write wd data).1.gzipWriter = none := by
  have hz2 : (decided (grw.atDecision wd data) data).withPipeline.gzipWriter = some z := hz
  have herr2 : (z.Write wd ((decided (grw.atDecision wd data) data).withPipeline.sw.getD ⟨0⟩)
      (decided (grw.atDecision wd data) data).withPipeline.writer data).2.2.2.2 = some e := herr
  have hW : grw.Write wd data =
      ((throughEncoder wd (decided (grw.atDecision wd data) data).withPipeline z data).1,
        some (throughEncoder wd (decided (grw.atDecision wd data) data).withPipeline z data).2) := by
    show deliver wd (decided (grw.atDecision wd data) data) data = _
    unfold deliver
    rw [if_pos hgz, hz2]
  have hT : throughEncoder wd (decided (grw.atDecision wd data) data).withPipeline z data =
      ((afterEncoder wd (atEncoder wd grw data) z data).finish wd,
        (z.Write wd ((atEncoder wd grw data).sw.getD ⟨0⟩) (atEncoder wd grw data).writer
          data).2.2.2) := by
    unfold throughEncoder
    simp only [herr2, Option.isSome_some, Bool.or_true, if_true]
    rfl
  rw [hW, hT]
  refine ⟨?_, rfl, ?_⟩
  · show some (z.Write wd ((atEncoder wd grw data).sw.getD ⟨0⟩) (atEncoder wd grw data).writer
      data).2.2.2 = _
    rw [← herr]
  · show ((afterEncoder wd (atEncoder wd grw data) z data).finish wd).gzipWriter = none
    unfold finish
    split
    · assumption
    · rfl

/-- C12 witness: the first chunk of a JSON response on a sink that fails. -/
theorem encoder_error_returned_and_finished_witness :
    ((newGzipRespWriter (freshSink jsonHeaders2000) (requestAccepting "gzip")).Write
      brokenPipeWorld (body 16)).2 = some (0, some "broken pipe") ∧
    ((newGzipRespWriter (freshSink jsonHeaders2000) (requestAccepting "gzip")).Write
      brokenPipeWorld (body 16)).1.gzipWriter = none :=
  have h := encoder_error_returned_and_finished brokenPipeWorld
    (newGzipRespWriter (freshSink jsonHeaders2000) (requestAccepting "gzip")) (body 16)
    GzipWriter.new "broken pipe" (by decide) (by decide) (by decide)
  ⟨h.1, h.2.2⟩

end GoHttpHandler

namespace GoHttpHandler

open gzipRespWriter

/-! ## The log line -/

theorem beforeLastChars_of_not_mem (sep : Char) (s : List Char) (h : sep ∉ s) :
    beforeLastChars sep s = none := by
  induction s with
  | nil => rfl
  | cons c s ih =>
    have hc : c ≠ sep := fun e => h (by simp [e])
    have hs : sep ∉ s := fun e => h (List.mem_cons_of_mem _ e)
    rw [beforeLastChars, ih hs]
    simp [hc]

theorem beforeLastChars_host_port (host port : List Char) (h : ':' ∉ port) :
    beforeLastChars ':' (host ++ ':' :: port) = some host := by
  induction host with
  | nil =>
    rw [List.nil_append, beforeLastChars, beforeLastChars_of_not_mem _ _ h]
    simp
  | cons c host ih =>
    rw [List.cons_append, beforeLastChars, ih]

theorem string_length_eq_zero_iff (s : String) : (s.length == 0) = true ↔ s = "" := by
  constructor
  · intro h
    have h0 : s.data.length = 0 := by simpa using h
    have hd : s.data = [] := List.length_eq_zero.1 h0
    exact String.ext hd
  · intro h
    rw [h]
    rfl

/-- C13 at the failing input: for the remote address `10.0.0.1`, which has no
colon, the slice of `RemoteAddr` faults and `ServeHTTP` writes no log line;
with `10.0.0.1:4711` it logs the address cut before its last colon. -/
theorem remote_addr_without_port_faults :
    beforeLastChars ':' "10.0.0.1".data = none ∧
    HttpLogGzipHandler.ServeHTTP plainWorld ⟨[.Write (body 16)], []⟩ 3 (freshSink jsonHeaders2000)
      { requestAccepting "gzip" with RemoteAddr := "10.0.0.1" } = none ∧
    beforeLastChars ':' "10.0.0.1:4711".data = some "10.0.0.1".data ∧
    (HttpLogGzipHandler.ServeHTTP plainWorld ⟨[.Write (body 16)], []⟩ 3
      (freshSink jsonHeaders2000) (requestAccepting "gzip")).isSome = true := by
  decide

/-- The log line of a run that returns: a request from `host:port` and a
handler none of whose calls faults.  `ServeHTTP` returns with the log sink
exactly one write longer, and the line written is
`<ip> <method> <uri> <status> <tx>/<raw> <millis>ms <referer> '<content-type>' <user-agent>`
without trailing newline: `ip` the host, the integers in decimal, `tx` what
`getBytesWritten` returns, `raw` and `status` the decorator's `origBytes` and
`statusCode` after `finish`, the referer `-` when the `Referer` header is empty. -/
theorem log_line_format (wd : World) (handler : HttpLogGzipHandler) (millis : Int)
    (w : ResponseWriter) (r : Request) (host port : List Char)
    (haddr : r.RemoteAddr.data = host ++ ':' :: port) (hport : ':' ∉ port)
    (hf : faultFree wd (newGzipRespWriter w r) handler.impl = true) :
    ∃ tx,
      ((exec wd (newGzipRespWriter w r) handler.impl).finish wd).getBytesWritten = some tx ∧
      handler.ServeHTTP wd millis w r =
        some (⟨handler.impl,
               handler.logWriter ++
                [(⟨host⟩ : String) ++ " " ++ r.Method ++ " " ++ r.RequestURI ++ " " ++
                  toString ((exec wd (newGzipRespWriter w r) handler.impl).finish wd).statusCode ++
                  " " ++ toString tx ++ "/" ++
                  toString ((exec wd (newGzipRespWriter w r) handler.impl).finish wd).origBytes ++
                  " " ++ toString millis ++ "ms " ++
                  (if r.Header.Get "Referer" = "" then "-" else r.Header.Get "Referer") ++
                  " '" ++
                  ((exec wd (newGzipRespWriter w r) handler.impl).finish wd).writer.header.Get
                    "Content-Type" ++ "' " ++ r.Header.Get "User-Agent"]⟩,
              ((exec wd (newGzipRespWriter w r) handler.impl).finish wd).writer) := by
  have hip : beforeLastChars ':' r.RemoteAddr.data = some host := by
    rw [haddr]; exact beforeLastChars_host_port host port hport
  obtain ⟨tx, htx, hserve⟩ := ServeHTTP_of_faultFree wd handler millis w r host hf hip
  obtain ⟨_, _, f3, f4, _, _⟩ := finish_frame wd (exec wd (newGzipRespWriter w r) handler.impl)
  refine ⟨tx, htx, ?_⟩
  rw [hserve, f3, f4]
  have href : (if (r.Referer.length == 0) = true then "-" else r.Referer) =
      (if r.Referer = "" then "-" else r.Referer) := by
    by_cases h : r.Referer = ""
    · rw [if_pos h, if_pos ((string_length_eq_zero_iff _).2 h)]
    · rw [if_neg h, if_neg (fun h2 => h ((string_length_eq_zero_iff _).1 h2))]
  rw [href]
  rfl

/-- An instance: the request from `10.0.0.1:4711` without `Referer`, a handler
that writes 16 bytes. -/
theorem log_line_format_witness :
    ∃ tx,
      ((exec plainWorld (newGzipRespWriter (freshSink jsonHeaders2000) (requestAccepting "gzip"))
        [.Write (body 16)]).finish plainWorld).getBytesWritten = some tx ∧
      HttpLogGzipHandler.ServeHTTP plainWorld ⟨[.Write (body 16)], []⟩ 3
        (freshSink jsonHeaders2000) (requestAccepting "gzip") =
        some (⟨[.Write (body 16)],
               [] ++
                [(⟨"10.0.0.1".data⟩ : String) ++ " " ++ "GET" ++ " " ++ "/" ++ " " ++
                  toString ((exec plainWorld (newGzipRespWriter (freshSink jsonHeaders2000)
                    (requestAccepting "gzip")) [.Write (body 16)]).finish plainWorld).statusCode ++
                  " " ++ toString tx ++ "/" ++
                  toString ((exec plainWorld (newGzipRespWriter (freshSink jsonHeaders2000)
                    (requestAccepting "gzip")) [.Write (body 16)]).finish plainWorld).origBytes ++
                  " " ++ toString (3 : Int) ++ "ms " ++
                  (if (requestAccepting "gzip").Header.Get "Referer" = "" then "-"
                    else (requestAccepting "gzip").Header.Get "Referer") ++ " '" ++
                  ((exec plainWorld (newGzipRespWriter (freshSink jsonHeaders2000)
                    (requestAccepting "gzip")) [.Write (body 16)]).finish
                      plainWorld).writer.header.Get "Content-Type" ++ "' " ++
                  (requestAccepting "gzip").Header.Get "User-Agent"]⟩,
              ((exec plainWorld (newGzipRespWriter (freshSink jsonHeaders2000)
                (requestAccepting "gzip")) [.Write (body 16)]).finish plainWorld).writer) :=
  log_line_format plainWorld ⟨[.Write (body 16)], []⟩ 3 (freshSink jsonHeaders2000)
    (requestAccepting "gzip") "10.0.0.1".data "4711".data (by decide) (by decide) (by decide)

theorem log_line_example :
    (HttpLogGzipHandler.ServeHTTP plainWorld ⟨[.Write (body 16)], []⟩ 3
      (freshSink jsonHeaders2000) (requestAccepting "gzip")).map (fun p => p.1.logWriter) =
      some ["10.0.0.1 GET / 200 16/16 3ms - 'application/json' curl"] := by
  decide

end GoHttpHandler

namespace GoHttpHandler

open gzipRespWriter

/-! ## Byte accounting -/

theorem step_origBytes (wd : World) (g : gzipRespWriter) (op : Op) :
    (step wd g op).1.origBytes = g.origBytes + ((chunksOf [op]).flatten.length : Int) := by
  cases op with
  | headers h => simp [step, chunksOf]
  | WriteHeader c =>
    show (g.WriteHeader c).origBytes = _
    rw [(WriteHeader_frame g c).2.2.2.2.1]
    simp [chunksOf]
  | Write d =>
    obtain ⟨gc, hs, h, cl, e⟩ := decided_atDecision_shape wd g d
    show (deliver wd (decided (g.atDecision wd d) d) d).1.origBytes = _
    rw [(deliver_frame wd _ d).2.2.2.1, e]
    simp [chunksOf]
  | finish =>
    show (g.finish wd).origBytes = _
    rw [(finish_frame wd g).2.2.2.1]
    simp [chunksOf]

theorem exec_origBytes (wd : World) (ops : List Op) :
    ∀ g : gzipRespWriter,
      (exec wd g ops).origBytes = g.origBytes + ((chunksOf ops).flatten.length : Int) := by
  induction ops with
  | nil => intro g; simp [exec, chunksOf]
  | cons op ops ih =>
    intro g
    rw [exec_cons, ih, step_origBytes, chunksOf_cons op ops]
    simp only [List.flatten_append, List.length_append, Nat.cast_add]
    omega

/-- C15: after any calls on a fresh decorator, `getBytesWritten` does not fault;
when compression was chosen the byte-counting sink exists and its total is what
is returned; otherwise the raw total is returned, which is the sum of the
lengths of all chunks passed to `Write`. -/
theorem bytes_written_accounting (wd : World) (w : ResponseWriter) (r : Request)
    (ops : List Op) :
    ∃ tx, (exec wd (newGzipRespWriter w r) ops).getBytesWritten = some tx ∧
      ((exec wd (newGzipRespWriter w r) ops).gzipContent = true →
        ∃ sw, (exec wd (newGzipRespWriter w r) ops).sw = some sw ∧ tx = sw.bytes) ∧
      ((exec wd (newGzipRespWriter w r) ops).gzipContent = false →
        tx = (exec wd (newGzipRespWriter w r) ops).origBytes ∧
        tx = ((chunksOf ops).flatten.length : Int)) := by
  have hsw := exec_sw wd ops (newGzipRespWriter w r)
    (fun h => absurd h (by simp [newGzipRespWriter]))
  have ho := exec_origBytes wd ops (newGzipRespWriter w r)
  have ho2 : (exec wd (newGzipRespWriter w r) ops).origBytes =
      ((chunksOf ops).flatten.length : Int) := by
    rw [ho]; show (0 : Int) + _ = _; omega
  cases hg : (exec wd (newGzipRespWriter w r) ops).gzipContent with
  | true =>
    have hs := hsw hg
    cases hs2 : (exec wd (newGzipRespWriter w r) ops).sw with
    | none => rw [hs2] at hs; simp at hs
    | some sw =>
      refine ⟨sw.bytes, ?_, fun _ => ⟨sw, rfl, rfl⟩, fun h => absurd h (by simp)⟩
      unfold getBytesWritten
      rw [hg, hs2]
      rfl
  | false =>
    refine ⟨(exec wd (newGzipRespWriter w r) ops).origBytes, ?_,
      fun h => absurd h (by simp), fun _ => ⟨rfl, ho2⟩⟩
    unfold getBytesWritten
    rw [hg]
    rfl

/-- The writes through a `statWriter`: results and sink are those of the sink
alone, and the total grows by the counts of the writes without error. -/
theorem statWriteAll_eq (wd : World) (ds : List Bytes) :
    ∀ (sw : statWriter) (w : ResponseWriter),
      (statWriteAll wd sw w ds).2.2 = (sinkWriteAll wd w ds).2 ∧
      (statWriteAll wd sw w ds).2.1 = (sinkWriteAll wd w ds).1 ∧
      (statWriteAll wd sw w ds).1.bytes = sw.bytes + countedBytes (sinkWriteAll wd w ds).2 := by
  induction ds with
  | nil => intro sw w; simp [statWriteAll, sinkWriteAll, countedBytes]
  | cons d ds ih =>
    intro sw w
    obtain ⟨i1, i2, i3⟩ := ih (sw.Write wd w d).1 (sw.Write wd w d).2.1
    have hw : (sw.Write wd w d).2.1 = (w.Write wd d).1 := rfl
    have hr : (sw.Write wd w d).2.2 = (w.Write wd d).2 := rfl
    rw [hw] at i1 i2 i3
    refine ⟨?_, ?_, ?_⟩
    · show (sw.Write wd w d).2.2 :: (statWriteAll wd _ _ ds).2.2 = _
      rw [hw, i1, hr]
      rfl
    · show (statWriteAll wd _ _ ds).2.1 = _
      rw [hw, i2]
      rfl
    · show (statWriteAll wd _ _ ds).1.bytes = _
      rw [hw, i3]
      show _ = sw.bytes + countedBytes ((w.Write wd d).2 :: (sinkWriteAll wd (w.Write wd d).1 ds).2)
      cases hres : (w.Write wd d).2 with
      | mk n err =>
        cases err with
        | none =>
          have : (sw.Write wd w d).1.bytes = sw.bytes + n := by
            unfold statWriter.Write
            simp [hres]
          rw [this]
          simp only [countedBytes]
          omega
        | some e =>
          have : (sw.Write wd w d).1.bytes = sw.bytes := by
            unfold statWriter.Write
            simp [hres]
          rw [this]
          simp only [countedBytes]

/-- C16 (as amended): for every wrapped sink and every sequence of writes through
a `statWriter`, each write returns exactly the pair the sink returned for the
same data and leaves the sink as the sink's own write does, and the
accumulated total is the sum of the counts of the writes that returned no
error; a write that returns an error adds nothing, whatever its count. -/
theorem stat_writer_counts_successful_writes (wd : World) (sw : statWriter)
    (w : ResponseWriter) (ds : List Bytes) (d : Bytes) :
    (sw.Write wd w d).2.2 = wd.sinkWrite w d ∧ (sw.Write wd w d).2.1 = (w.Write wd d).1 ∧
    ((wd.sinkWrite w d).2 ≠ none → (sw.Write wd w d).1.bytes = sw.bytes) ∧
    (statWriteAll wd sw w ds).2.2 = (sinkWriteAll wd w ds).2 ∧
    (statWriteAll wd sw w ds).2.1 = (sinkWriteAll wd w ds).1 ∧
    (statWriteAll wd sw w ds).1.bytes = sw.bytes + countedBytes (sinkWriteAll wd w ds).2 := by
  obtain ⟨h1, h2, h3⟩ := statWriteAll_eq wd ds sw w
  refine ⟨rfl, rfl, ?_, h1, h2, h3⟩
  intro he
  unfold statWriter.Write
  have : (w.Write wd d).2.2 = (wd.sinkWrite w d).2 := rfl
  simp only [this, he, if_false]

/-- C16 (as stated) fails: the sink confirms 3 of 5 bytes and reports a short
write; the `statWriter` returns that pair, and its total stays 0, not 3. -/
theorem short_write_not_counted :
    (statWriter.Write shortWriteWorld ⟨0⟩ (freshSink ⟨[]⟩) (body 5)).2.2 =
      (3, some "short write") ∧
    (statWriteAll shortWriteWorld ⟨0⟩ (freshSink ⟨[]⟩) [body 5]).1.bytes = 0 ∧
    confirmedBytes (statWriteAll shortWriteWorld ⟨0⟩ (freshSink ⟨[]⟩) [body 5]).2.2 = 3 := by
  decide

end GoHttpHandler

namespace GoHttpHandler

open gzipRespWriter

/-! ## A `Content-Length` that does not parse -/

namespace gzipRespWriter

theorem checkContentLength_unparsed (g : gzipRespWriter)
    (hp : parseInt32 (g.writer.header.Get "Content-Length") = none) :
    g.checkContentLength = g := by
  have hp2 : parseInt32 (g.Header.Get "Content-Length") = none := hp
  unfold checkContentLength
  split
  · rfl
  · simp only [hp2]
    split <;> rfl

theorem atDecision_unparsed (wd : World) (g : gzipRespWriter) (data : Bytes)
    (hp : parseInt32 (g.writer.header.Get "Content-Length") = none) :
    (g.atDecision wd data).contentLength = g.contentLength ∧
    (g.atDecision wd data).headerSet = g.headerSet := by
  unfold atDecision
  simp only
  split
  · rw [checkContentLength_unparsed _ (by
      show parseInt32 ((g.writer.header.Set "Content-Type" _).Get "Content-Length") = none
      rw [Header.Get_Set_other _ _ _ _ (by decide)]
      exact hp)]
    exact ⟨rfl, rfl⟩
  · rw [checkContentLength_unparsed g hp]
    exact ⟨rfl, rfl⟩

theorem decided_of_headerSet (g : gzipRespWriter) (data : Bytes) (hs : g.headerSet = true) :
    (decided g data).headerSet = true ∧ (decided g data).writer.header = g.writer.header := by
  unfold decided
  simp only
  split
  · split
    · rw [setHeader_of_headerSet _ (by exact hs)]
      exact ⟨hs, rfl⟩
    · exact ⟨hs, rfl⟩
  · exact ⟨hs, rfl⟩

theorem atDecision_of_headerSet (wd : World) (g : gzipRespWriter) (data : Bytes)
    (hs : g.headerSet = true) (k : String) (hk : k ≠ "Content-Type") :
    (g.atDecision wd data).headerSet = true ∧
    (g.atDecision wd data).writer.header.entries.lookup k = g.writer.header.entries.lookup k := by
  unfold atDecision
  simp only
  split
  · obtain ⟨c1, c2⟩ := checkContentLength_of_headerSet
      { g with writer := { g.writer with
          header := g.writer.header.Set "Content-Type" (wd.DetectContentType data) } } hs
    refine ⟨c1, ?_⟩
    rw [c2]
    exact Header.lookup_Set_other _ _ _ _ hk
  · obtain ⟨c1, c2⟩ := checkContentLength_of_headerSet g hs
    exact ⟨c1, by rw [c2]⟩

end gzipRespWriter

/-- C17: a `Content-Length` value that does not parse.  `checkContentLength`
returns the decorator as it was (no hint, no header change), and so does the
check inside `Write`; on a decorator without hint on which nothing was written,
with gzip accepted, status 200 and an allow-listed `Content-Type`, the first
`Write` leaves the hint 0 and chooses compression exactly when the chunk is
longer than 1024 bytes. -/
theorem unparsable_length_ignored (wd : World) (grw : gzipRespWriter) (data : Bytes)
    (hp : parseInt32 (grw.writer.header.Get "Content-Length") = none) :
    grw.checkContentLength = grw ∧
    (grw.atDecision wd data).contentLength = grw.contentLength ∧
    (grw.atDecision wd data).headerSet = grw.headerSet ∧
    (grw.written = false → grw.contentLength = 0 → acceptGzip grw.request = true →
      grw.statusCode = 200 → gzipable (contentTypeAt wd grw.writer.header data) = true →
      (grw.Write wd data).1.contentLength = 0 ∧
      ((grw.Write wd data).1.gzipContent = true ↔ (data.length : Int) > 1024)) := by
  obtain ⟨a1, a2⟩ := atDecision_unparsed wd grw data hp
  refine ⟨checkContentLength_unparsed grw hp, a1, a2, ?_⟩
  intro hw hc hacc hst hct
  obtain ⟨f1, f2⟩ := Write_first wd grw data hw
  obtain ⟨cl, hs, hd, e⟩ := atDecision_shape wd grw data
  refine ⟨by rw [f2, a1, hc], ?_⟩
  rw [f1, canGzip_iff, a1, hc, atDecision_contentType]
  have hreq : (grw.atDecision wd data).request = grw.request := by rw [e]
  have hstat : (grw.atDecision wd data).statusCode = grw.statusCode := by rw [e]
  rw [hreq, hstat]
  constructor
  · rintro ⟨_, _, _, h | h⟩
    · exact h
    · exact absurd h (by decide)
  · intro h
    exact ⟨hacc, hst, hct, Or.inl h⟩

/-- C17 witness: `Content-Length: 12abc` on a JSON response, a first chunk of 16
bytes. -/
theorem unparsable_length_ignored_witness :
    (newGzipRespWriter (freshSink jsonHeadersBadLength)
      (requestAccepting "gzip")).checkContentLength =
      newGzipRespWriter (freshSink jsonHeadersBadLength) (requestAccepting "gzip") ∧
    ((newGzipRespWriter (freshSink jsonHeadersBadLength) (requestAccepting "gzip")).Write
      plainWorld (body 16)).1.contentLength = 0 :=
  have h := unparsable_length_ignored plainWorld
    (newGzipRespWriter (freshSink jsonHeadersBadLength) (requestAccepting "gzip")) (body 16)
    (by decide)
  ⟨h.1, (h.2.2.2 rfl rfl (by decide) rfl (by decide)).1⟩

/-- C18 at the failing input: the handler announces 2000 bytes of JSON and calls
`WriteHeader(200)`, which pre-sets `Content-Encoding: gzip`; it then calls
`WriteHeader(500)` and writes.  After that first body write `headerSet` is
true and the map says `gzip`, yet `gzipContent` is false and the chunk went to
the sink as it is. -/
theorem preset_header_without_compression :
    (exec plainWorld (newGzipRespWriter (freshSink jsonHeaders2000) (requestAccepting "gzip"))
      [.WriteHeader 200]).headerSet = true ∧
    (exec plainWorld (newGzipRespWriter (freshSink jsonHeaders2000) (requestAccepting "gzip"))
      [.WriteHeader 200, .WriteHeader 500, .Write (body 16)]).written = true ∧
    (exec plainWorld (newGzipRespWriter (freshSink jsonHeaders2000) (requestAccepting "gzip"))
      [.WriteHeader 200, .WriteHeader 500, .Write (body 16)]).headerSet = true ∧
    (exec plainWorld (newGzipRespWriter (freshSink jsonHeaders2000) (requestAccepting "gzip"))
      [.WriteHeader 200, .WriteHeader 500, .Write (body 16)]).writer.header.Get
        "Content-Encoding" = "gzip" ∧
    (exec plainWorld (newGzipRespWriter (freshSink jsonHeaders2000) (requestAccepting "gzip"))
      [.WriteHeader 200, .WriteHeader 500, .Write (body 16)]).gzipContent = false ∧
    (exec plainWorld (newGzipRespWriter (freshSink jsonHeaders2000) (requestAccepting "gzip"))
      [.WriteHeader 200, .WriteHeader 500, .Write (body 16)]).gzipWriter = none ∧
    (exec plainWorld (newGzipRespWriter (freshSink jsonHeaders2000) (requestAccepting "gzip"))
      [.WriteHeader 200, .WriteHeader 500, .Write (body 16)]).writer.writes = [body 16] := by
  decide

theorem step_of_headerSet (wd : World) (g : gzipRespWriter) (op : Op) (hs : g.headerSet = true)
    (k : String) (hk : k ≠ "Content-Type") (hop : ∀ h, op ≠ .headers h) :
    (step wd g op).1.headerSet = true ∧
    (step wd g op).1.writer.header.entries.lookup k = g.writer.header.entries.lookup k := by
  cases op with
  | headers h => exact absurd rfl (hop h)
  | WriteHeader c =>
    obtain ⟨c1, c2⟩ := checkContentLength_of_headerSet { g with statusCode := c } hs
    have key : g.WriteHeader c =
        { ({ g with statusCode := c } : gzipRespWriter).checkContentLength with
          writer := (({ g with statusCode := c } : gzipRespWriter).checkContentLength
            ).writer.WriteHeader c } := rfl
    show (g.WriteHeader c).headerSet = true ∧ _ = _
    rw [key]
    refine ⟨c1, ?_⟩
    show (({ g with statusCode := c } : gzipRespWriter).checkContentLength
      ).writer.header.entries.lookup k = _
    rw [c2]
  | Write d =>
    obtain ⟨a1, a2⟩ := atDecision_of_headerSet wd g d hs k hk
    obtain ⟨b1, b2⟩ := decided_of_headerSet (g.atDecision wd d) d a1
    obtain ⟨d1, d2⟩ := deliver_header wd (decided (g.atDecision wd d) d) d b1
    show (deliver wd (decided (g.atDecision wd d) d) d).1.headerSet = true ∧ _ = _
    refine ⟨d1, ?_⟩
    show (deliver wd (decided (g.atDecision wd d) d) d).1.writer.header.entries.lookup k = _
    rw [d2, b2, a2]
  | finish =>
    obtain ⟨f1, f2⟩ := finish_header wd g hs
    show (g.finish wd).headerSet = true ∧ _ = _
    refine ⟨f1, ?_⟩
    show (g.finish wd).writer.header.entries.lookup k = _
    rw [f2]

theorem exec_of_headerSet (wd : World) (ops : List Op) :
    ∀ g : gzipRespWriter, g.headerSet = true → (exec wd g ops).headerSet = true := by
  induction ops with
  | nil => intro g hs; exact hs
  | cons op ops ih =>
    intro g hs
    rw [exec_cons]
    apply ih
    cases op with
    | headers h => exact hs
    | WriteHeader c => exact (step_of_headerSet wd g _ hs "x" (by decide) (by simp)).1
    | Write d => exact (step_of_headerSet wd g _ hs "x" (by decide) (by simp)).1
    | finish => exact (step_of_headerSet wd g _ hs "x" (by decide) (by simp)).1

/-- C19: once the decorator has made its header mutation (`headerSet` is true),
whatever the handler has put into the map since: `headerSet` stays true over
every sequence of calls `ops`, and no decorator call `op` (`Write`,
`WriteHeader`, `finish`) changes the `Content-Encoding` or the `Content-Length`
entry of the map. -/
theorem header_mutation_made_once (wd : World) (grw : gzipRespWriter) (ops : List Op) (op : Op)
    (hs : grw.headerSet = true) (hop : ∀ h, op ≠ .headers h) :
    (exec wd grw ops).headerSet = true ∧
    (step wd grw op).1.writer.header.entries.lookup "Content-Encoding" =
      grw.writer.header.entries.lookup "Content-Encoding" ∧
    (step wd grw op).1.writer.header.entries.lookup "Content-Length" =
      grw.writer.header.entries.lookup "Content-Length" :=
  ⟨exec_of_headerSet wd ops grw hs,
    (step_of_headerSet wd grw op hs "Content-Encoding" (by decide) hop).2,
    (step_of_headerSet wd grw op hs "Content-Length" (by decide) hop).2⟩

/-- C19 witness: the decorator whose first `Write` compressed, the handler having
put `Content-Length` back; then `finish`. -/
theorem header_mutation_made_once_witness :
    (step plainWorld (exec plainWorld compressing [.headers jsonHeaders2000]) .finish
      ).1.writer.header.entries.lookup "Content-Length" =
      (exec plainWorld compressing [.headers jsonHeaders2000]).writer.header.entries.lookup
        "Content-Length" :=
  (header_mutation_made_once plainWorld (exec plainWorld compressing [.headers jsonHeaders2000])
    [] .finish (by decide) (by intro h; exact Op.noConfusion)).2.2

end GoHttpHandler

namespace GoHttpHandler

open gzipRespWriter

/-- A `Write` in compression mode on a decorator whose byte-counting sink exists
and whose encoder reference was cleared faults. -/
theorem Write_on_cleared_encoder (wd : World) (g : gzipRespWriter) (data : Bytes)
    (hw : g.written = true) (hg : g.gzipContent = true) (hsw : g.sw.isSome = true)
    (hz : g.gzipWriter = none) : (g.Write wd data).2 = none := by
  obtain ⟨h, e⟩ := atDecision_of_written wd g data hw
  have hd := decided_of_written (g.atDecision wd data) data (by rw [e]; exact hw)
  show (deliver wd (decided (g.atDecision wd data) data) data).2 = none
  rw [hd, e]
  unfold deliver
  rw [if_pos (by exact hg)]
  have hp : ∀ g4 : gzipRespWriter, g4.sw.isSome = true → g4.withPipeline = g4 := by
    intro g4 h4
    unfold withPipeline
    cases hs : g4.sw with
    | none => rw [hs] at h4; simp at h4
    | some s => simp
  rw [hp _ (by exact hsw)]
  simp only [hz]

/-- C20 at the failing inputs.  The sink fails the first write of an eligible
response: `Write` returns the error, `finish` has cleared the encoder, and the
next `Write` takes the compression branch with no encoder and faults.  And a
handler that announced 2000 bytes writes them in one chunk: the encoder is
closed and cleared at the hint, and a further `Write` (here of no bytes)
faults. -/
theorem write_after_clear_faults :
    ((newGzipRespWriter (freshSink jsonHeaders2000) (requestAccepting "gzip")).Write
      brokenPipeWorld (body 16)).2 = some (0, some "broken pipe") ∧
    (exec brokenPipeWorld (newGzipRespWriter (freshSink jsonHeaders2000)
      (requestAccepting "gzip")) [.Write (body 16)]).gzipContent = true ∧
    (exec brokenPipeWorld (newGzipRespWriter (freshSink jsonHeaders2000)
      (requestAccepting "gzip")) [.Write (body 16)]).gzipWriter = none ∧
    ((exec brokenPipeWorld (newGzipRespWriter (freshSink jsonHeaders2000)
      (requestAccepting "gzip")) [.Write (body 16)]).Write brokenPipeWorld (body 16)).2 = none ∧
    faultFree brokenPipeWorld (newGzipRespWriter (freshSink jsonHeaders2000)
      (requestAccepting "gzip")) [.Write (body 16), .Write (body 16)] = false ∧
    (exec plainWorld (newGzipRespWriter (freshSink jsonHeaders2000)
      (requestAccepting "gzip")) [.Write (body 2000)]).gzipContent = true ∧
    (exec plainWorld (newGzipRespWriter (freshSink jsonHeaders2000)
      (requestAccepting "gzip")) [.Write (body 2000)]).gzipWriter = none ∧
    ((exec plainWorld (newGzipRespWriter (freshSink jsonHeaders2000)
      (requestAccepting "gzip")) [.Write (body 2000)]).Write plainWorld []).2 = none ∧
    HttpLogGzipHandler.ServeHTTP plainWorld ⟨[.Write (body 2000), .Write []], []⟩ 3
      (freshSink jsonHeaders2000) (requestAccepting "gzip") = none := by
  decide!

end GoHttpHandler

namespace GoHttpHandler

open gzipRespWriter

/-- C4 (as stated) fails: `WriteHeader(200)` took the hint 2000 from the map; the
handler then announced `Content-Length: 8` and wrote 8 bytes.  At the first body
write the map holds the decimal number 8, the body is 8 bytes in all, yet
compression is chosen and the decorator has set `Content-Encoding: gzip`. -/
theorem stale_hint_compresses_small_body :
    (exec plainWorld (newGzipRespWriter (freshSink jsonHeaders2000) (requestAccepting "gzip"))
      [.WriteHeader 200, .headers lengthLowered]).written = false ∧
    parseInt32 ((exec plainWorld (newGzipRespWriter (freshSink jsonHeaders2000)
      (requestAccepting "gzip")) [.WriteHeader 200, .headers lengthLowered]).writer.header.Get
        "Content-Length") = some 8 ∧
    (chunksOf [.WriteHeader 200, .headers lengthLowered, .Write (body 8)]).flatten.length = 8 ∧
    (exec plainWorld (newGzipRespWriter (freshSink jsonHeaders2000) (requestAccepting "gzip"))
      [.WriteHeader 200, .headers lengthLowered, .Write (body 8)]).contentLength = 2000 ∧
    (exec plainWorld (newGzipRespWriter (freshSink jsonHeaders2000) (requestAccepting "gzip"))
      [.WriteHeader 200, .headers lengthLowered, .Write (body 8)]).gzipContent = true ∧
    (exec plainWorld (newGzipRespWriter (freshSink jsonHeaders2000) (requestAccepting "gzip"))
      [.WriteHeader 200, .headers lengthLowered, .Write (body 8)]).headerSet = true ∧
    (exec plainWorld (newGzipRespWriter (freshSink jsonHeaders2000) (requestAccepting "gzip"))
      [.WriteHeader 200, .headers lengthLowered, .Write (body 8)]).writer.header.Get
        "Content-Encoding" = "gzip" := by
  decide

/-- C7 at the failing input.  A handler that never calls `WriteHeader` announces
2000 bytes of JSON, writes them in one chunk and calls `Write` once more with no
bytes: the decorator holds status 200, but the second `Write` faults on the
cleared encoder and `ServeHTTP` writes no log line, so no status is logged.
Without the second `Write` the line is written with status 200, and with
`WriteHeader(404)` first it is written with status 404, compression not chosen. -/
theorem status_not_logged_after_write_fault :
    (exec plainWorld (newGzipRespWriter (freshSink jsonHeaders2000) (requestAccepting "gzip"))
      [.Write (body 2000), .Write []]).statusCode = 200 ∧
    HttpLogGzipHandler.ServeHTTP plainWorld ⟨[.Write (body 2000), .Write []], []⟩ 3
      (freshSink jsonHeaders2000) (requestAccepting "gzip") = none ∧
    (HttpLogGzipHandler.ServeHTTP plainWorld ⟨[.Write (body 2000)], []⟩ 3
      (freshSink jsonHeaders2000) (requestAccepting "gzip")).map (fun p => p.1.logWriter) =
      some ["10.0.0.1 GET / 200 2000/2000 3ms - 'application/json' curl"] ∧
    (exec plainWorld (newGzipRespWriter (freshSink jsonHeaders2000) (requestAccepting "gzip"))
      [.WriteHeader 404, .Write (body 2000)]).gzipContent = false ∧
    (HttpLogGzipHandler.ServeHTTP plainWorld ⟨[.WriteHeader 404, .Write (body 2000)], []⟩ 3
      (freshSink jsonHeaders2000) (requestAccepting "gzip")).map (fun p => p.1.logWriter) =
      some ["10.0.0.1 GET / 404 2000/2000 3ms - 'application/json' curl"] := by
  decide!

/-- C14 at the failing input.  The request comes from `10.0.0.1:4711`; the
handler announces 2000 bytes of JSON, writes them in one chunk and calls `Write`
once more with no bytes: the second `Write` faults on the cleared encoder, and
`ServeHTTP` makes no write on the log sink.  Without the second `Write` it makes
exactly one, of the line in the stated format. -/
theorem log_line_missing_after_write_fault :
    beforeLastChars ':' requestWithReferer.RemoteAddr.data = some "10.0.0.1".data ∧
    faultFree plainWorld (newGzipRespWriter (freshSink jsonHeaders2000) requestWithReferer)
      [.Write (body 2000), .Write []] = false ∧
    HttpLogGzipHandler.ServeHTTP plainWorld ⟨[.Write (body 2000), .Write []], []⟩ 3
      (freshSink jsonHeaders2000) requestWithReferer = none ∧
    (HttpLogGzipHandler.ServeHTTP plainWorld ⟨[.Write (body 2000)], []⟩ 3
      (freshSink jsonHeaders2000) requestWithReferer).map (fun p => p.1.logWriter) =
      some ["10.0.0.1 GET /index.html 200 2000/2000 3ms http://example.org/ 'application/json' curl"] := by
  decide!

end GoHttpHandler
